import Mathlib

/-!
# colorthief: median-cut colour quantisation

A shallow embedding of `src/colorthief.go` and `src/mccq.go` and the
properties of the specification that concern them.

Modelling conventions

* Go `int` is modelled by `Int`.  Every property below is about quantised
  channel values (at most 31), channel values (at most 255) and positions in a
  pixel slice, all far below `2 ^ 63`, so 64-bit wrap-around never occurs on
  the inputs considered.  For the stride loop of `Palette`: a position `x`
  that is read satisfies `x < pixel_count`, and either `x = 0` or
  `Quality <= x`, hence `x + Quality < 2 * pixel_count`, which a slice that
  fits in memory keeps below `2 ^ 63`.
* `imt.Color` belongs to an external package.  It is modelled as the record of
  its four channel fields `R`, `G`, `B`, `A` (the fields `Palette` fills in),
  and `RGBA()` returns these four fields.  Channels are unsigned.
* `imt.UnpackImage` belongs to the same external package.  Its result, a
  record with `Width`, `Height` and the slice `Pixels`, is modelled by
  `UnpackedImage`; `Params.Img` holds the image in this unpacked form.
* A Go `map[int]int` is modelled by `GoMap`, a function from keys to
  optional values; reading a missing key yields `0`, as in Go.
* A `for` loop whose termination depends on its input is modelled with a fuel
  argument; the three outcomes of a run are collected in `Outcome`.  A counting
  loop `for i := lo; i < hi+1; i++` is a fold over `loopRange lo hi`.
* Local variables of a function that its results do not expose (the positions
  read by `Palette`, the variables `cutColor`, `total`, `partialsum` of
  `medianCutApply`) are returned next to the results by the model of the
  function.
* The method `RGBAint` of `imt.Color`, external as well, is a parameter of
  `contains`.
* A `float32` value is modelled by the rational number it denotes, and every
  `float32` operation by the exact operation followed by `f32round`, the
  rounding to 24 significant bits with ties to even of IEEE 754 binary32.  The
  model covers the normal range: in `avg`, for a box with bounds in `[0, 31]`
  and 64-bit histogram entries, every non-zero intermediate value has a
  magnitude between `2 ^ (-80)` and `2 ^ 86`, so neither overflow nor
  subnormal numbers occur.  Go allows an implementation to fuse `x*y + z`; in `avg` the
  only candidate is `r_sum + t * mult` with `mult = 8`, where `t * mult` is
  exact, so the fused and the unfused results coincide.
-/

namespace Colorthief

/-! ## Go primitives -/

/-- Go's `x << k` on `int`, for magnitudes at which no overflow occurs. -/
def shl (x : Int) (k : Nat) : Int := x * 2 ^ k

/-- A Go `map[int]int`. -/
structure GoMap where
  lookup : Int → Option Int

/-- The empty map, `make(map[int]int)`. -/
def GoMap.empty : GoMap := ⟨fun _ => none⟩

/-- The read `m[k]`: the zero value when `k` is missing. -/
def GoMap.get (m : GoMap) (k : Int) : Int := (m.lookup k).getD 0

/-- The presence test `_, ok := m[k]`. -/
def GoMap.has (m : GoMap) (k : Int) : Bool := (m.lookup k).isSome

/-- The write `m[k] = v`. -/
def GoMap.set (m : GoMap) (k v : Int) : GoMap :=
  ⟨fun j => if j = k then some v else m.lookup j⟩

/-- The result of running a piece of Go code under a fuel bound. -/
inductive Outcome (α : Type) where
  /-- Normal return with a value. -/
  | done (a : α)
  /-- The run-time panic "index out of range" at index `i`. -/
  | indexOutOfRange (i : Int)
  /-- The fuel was used up before the code returned. -/
  | outOfFuel
deriving DecidableEq, Repr

/-! ## External collaborator `imt` -/

/-- The type `imt.Color`: one pixel's channels. -/
structure Color where
  R : Nat
  G : Nat
  B : Nat
  A : Nat
deriving DecidableEq, Repr

/-- The method `Color.RGBA()`. -/
def Color.RGBA (c : Color) : Nat × Nat × Nat × Nat := (c.R, c.G, c.B, c.A)

/-- The result of `imt.UnpackImage`. -/
structure UnpackedImage where
  Width : Int
  Height : Int
  Pixels : List Color
deriving DecidableEq, Repr

/-- The slice read `pixels[x]`: `none` stands for the index panic. -/
def pixelAt (pixels : List Color) (x : Int) : Option Color :=
  if 0 ≤ x then pixels.get? x.toNat else none

/-- An unpacked image is well formed when its slice holds `Width * Height`
pixels. -/
def UnpackedImage.WellFormed (i : UnpackedImage) : Prop :=
  (i.Pixels.length : Int) = i.Width * i.Height

/-! ## `mccq.go` -/

/-- The constant `sigbits`. -/
def sigbits : Nat := 5

/-- The constant `rshift`. -/
def rshift : Nat := 8 - sigbits

/-- The constant `max_iteration`. -/
def max_iteration : Nat := 1000

/-- The function `getColorIndex`.  In Go, `<<` and `*` have the same precedence
and associate to the left, so the source expression `r << 2 * sigbits` is
`(r << 2) * sigbits`. -/
def getColorIndex (r g b : Int) : Int :=
  (shl r 2) * (sigbits : Int) + (shl g sigbits) + b

/-- The body of the loop of `getHistogram`, for one pixel. -/
def histogramStep (histo : GoMap) (p : Color) : GoMap :=
  let (r, g, b, _) := p.RGBA
  let rval : Int := ((r >>> rshift : Nat) : Int)
  let gval : Int := ((g >>> rshift : Nat) : Int)
  let bval : Int := ((b >>> rshift : Nat) : Int)
  let v := getColorIndex rval gval bval
  if histo.has v then histo.set v (histo.get v + 1) else histo.set v 0

/-- The function `getHistogram`. -/
def getHistogram (pixels : List Color) : GoMap :=
  pixels.foldl histogramStep GoMap.empty

/-! ## `colorthief.go` -/

/-- The type `HexColor`. -/
abbrev HexColor := String

/-- The type `Params`, with the image in unpacked form. -/
structure Params where
  Img : UnpackedImage
  Quality : Int
  Count : Int
deriving DecidableEq, Repr

/-- The function `DominantColor`. -/
def DominantColor (_p : Params) : HexColor := "FFFFFF"

/-- The body of the sampling loop of `Palette`, for one visited pixel. -/
def sampleBody (validPixels : List Color) (px : Color) : List Color :=
  let (r, g, b, a) := px.RGBA
  if a > 125 then
    if !(r > 250 && g > 250 && b > 250) then
      validPixels ++ [{ R := r, G := g, B := b, A := a }]
    else validPixels
  else validPixels

/-- The sampling loop of `Palette`,
`for x := 0; x < pixel_count; x += p.Quality`, started in the state
`(x, validPixels)`.  The list `visited` records, in order, the positions `x`
at which `i.Pixels[x]` has been read; it is returned next to `validPixels`. -/
def sampleLoop (pixels : List Color) (pixel_count quality : Int) :
    Nat → Int → List Color → List Int → Outcome (List Color × List Int)
  | 0, _, _, _ => .outOfFuel
  | fuel + 1, x, validPixels, visited =>
    if x < pixel_count then
      match pixelAt pixels x with
      | none => .indexOutOfRange x
      | some px =>
        sampleLoop pixels pixel_count quality fuel (x + quality)
          (sampleBody validPixels px) (visited ++ [x])
    else .done (validPixels, visited)

/-- The function `Palette`: it runs the sampling loop and returns `nil`. -/
def Palette (fuel : Nat) (p : Params) : Outcome (List HexColor) :=
  let i := p.Img
  let pixel_count := i.Width * i.Height
  match sampleLoop i.Pixels pixel_count p.Quality fuel 0 [] [] with
  | .done _ => .done []
  | .indexOutOfRange k => .indexOutOfRange k
  | .outOfFuel => .outOfFuel

/-! ## Auxiliary definitions used in the statements -/

/-- The quantised index of a sample: `getColorIndex` of its channels shifted
right by `rshift`. -/
def sampleIndex (p : Color) : Int :=
  getColorIndex ((p.R >>> rshift : Nat) : Int) ((p.G >>> rshift : Nat) : Int)
    ((p.B >>> rshift : Nat) : Int)

/-- The number of samples of a list whose quantised index is `v`. -/
def countIndex (samples : List Color) (v : Int) : Nat :=
  (samples.filter (fun p => decide (sampleIndex p = v))).length

/-- The sampling filter in the words of the specification: alpha above 125
and not near-white. -/
def passesFilter (p : Color) : Prop :=
  p.A > 125 ∧ ¬ (p.R > 250 ∧ p.G > 250 ∧ p.B > 250)

instance (p : Color) : Decidable (passesFilter p) := by
  unfold passesFilter; infer_instance

/-- The number of positions `0, q, 2q, ...` below `n`: `ceil (n / q)`. -/
def strideCount (n q : Int) : Nat := ((n + q - 1) / q).toNat

/-- The positions `0, q, 2q, ...` taken `m` times. -/
def stridePositions (q : Int) (m : Nat) : List Int :=
  (List.range m).map (fun (k : Nat) => (k : Int) * q)

instance (i : UnpackedImage) : Decidable i.WellFormed := by
  unfold UnpackedImage.WellFormed; infer_instance

/-- The positions read by a run of `m` iterations started at `x`. -/
def positionsFrom (x q : Int) (m : Nat) : List Int :=
  (List.range m).map (fun (k : Nat) => x + (k : Int) * q)

/-- The samples kept among the pixels at the given positions. -/
def keptAt (pixels : List Color) (positions : List Int) : List Color :=
  (positions.filterMap (pixelAt pixels)).filter (fun p => decide (passesFilter p))

/-- The map entry that `getHistogram` holds for an index seen `c` times. -/
def histogramEntry (c : Nat) : Option Int :=
  if c = 0 then none else some ((c : Int) - 1)

/-! ## Concrete inputs -/

/-- The colour `(10, 20, 30)` with alpha 255. -/
def samplePixel : Color := ⟨10, 20, 30, 255⟩

/-- A 1 x 1 image holding `samplePixel`. -/
def onePixelImage : UnpackedImage := ⟨1, 1, [samplePixel]⟩

/-- A 2 x 2 image whose four pixels are `samplePixel`. -/
def uniformImage : UnpackedImage :=
  ⟨2, 2, [samplePixel, samplePixel, samplePixel, samplePixel]⟩

/-- An image without pixels. -/
def emptyImage : UnpackedImage := ⟨0, 0, []⟩

/-! ## `mccq.go`: boxes -/

/-- The values taken by `i` in a loop `for i := lo; i < hi+1; i++`. -/
def loopRange (lo hi : Int) : List Int :=
  (List.range (hi + 1 - lo).toNat).map (fun (k : Nat) => lo + (k : Int))

/-- The function `min`: its running value starts at `0`. -/
def min (nums : List Int) : Int :=
  nums.foldl (fun min num => if num ≤ min then num else min) 0

/-- The function `max`: its running value starts at `0`. -/
def max (nums : List Int) : Int :=
  nums.foldl (fun max num => if num ≥ max then num else max) 0

/-- The type `vbox`. -/
structure vbox where
  r1 : Int
  r2 : Int
  g1 : Int
  g2 : Int
  b1 : Int
  b2 : Int
  histo : GoMap

/-- The zero value of `vbox`; reading its nil map yields `0`. -/
def vbox.zero : vbox := ⟨0, 0, 0, 0, 0, 0, GoMap.empty⟩

/-- The method `volume`. -/
def vbox.volume (v : vbox) : Int :=
  let sub_r := v.r2 - v.r1 + 1
  let sub_g := v.g2 - v.g1 + 1
  let sub_b := v.b2 - v.b1 + 1
  sub_r * sub_g * sub_b

/-- The method `contains`.  The method `RGBAint` of the external type `imt.Color`
is a parameter. -/
def vbox.contains (RGBAint : Color → Int × Int × Int × Int) (v : vbox) (pixel : Color) : Bool :=
  let (r, g, b, _) := RGBAint pixel
  r ≥ v.r1 && r ≤ v.r2 && g ≥ v.g1 && r ≤ v.g2 && b ≥ v.b1 && b ≤ v.b2

/-- The method `count`. -/
def vbox.count (v : vbox) : Int :=
  (loopRange v.r1 v.r2).foldl (fun npix i =>
    (loopRange v.g1 v.g2).foldl (fun npix j =>
      (loopRange v.b1 v.b2).foldl (fun npix k =>
        let index := getColorIndex i j k
        npix + v.histo.get index) npix) npix) 0

/-- The six running bounds of `vboxFromPixels`. -/
structure Extent where
  rmin : Int
  gmin : Int
  bmin : Int
  rmax : Int
  gmax : Int
  bmax : Int
deriving DecidableEq, Repr

/-- The body of the loop of `vboxFromPixels`, for one pixel. -/
def extentStep (s : Extent) (p : Color) : Extent :=
  let (r, g, b, _) := p.RGBA
  let rval : Int := ((r >>> rshift : Nat) : Int)
  let gval : Int := ((g >>> rshift : Nat) : Int)
  let bval : Int := ((b >>> rshift : Nat) : Int)
  { rmin := min [rval, s.rmin], rmax := max [rval, s.rmax],
    gmin := min [gval, s.gmin], gmax := max [gval, s.gmax],
    bmin := min [bval, s.bmin], bmax := max [bval, s.bmax] }

/-- The function `vboxFromPixels`. -/
def vboxFromPixels (pixels : List Color) (histo : GoMap) : vbox :=
  let s := pixels.foldl extentStep
    { rmin := 1000000, gmin := 1000000, bmin := 1000000, rmax := 0, gmax := 0, bmax := 0 }
  { r1 := s.rmin, r2 := s.rmax, g1 := s.gmin, g2 := s.gmax, b1 := s.bmin, b2 := s.bmax,
    histo := histo }

/-- The local variables of `medianCutApply` when its last loop is reached. -/
structure CutLocals where
  cutColor : String
  total : Int
  partialsum : GoMap
  lookaheadsum : GoMap
  dim1 : Int
  dim2 : Int

/-- One of the three accumulation loops of `medianCutApply`: `i` runs over `[lo, hi]`,
`j` over `[jlo, jhi]`, `k` over `[klo, khi]`, and `index i j k` is the histogram key
read in the innermost body.  The result is `(total, partialsum)`. -/
def accumulate (histo : GoMap) (index : Int → Int → Int → Int)
    (lo hi jlo jhi klo khi : Int) : Int × GoMap :=
  (loopRange lo hi).foldl (fun (s : Int × GoMap) i =>
    let sum := (loopRange jlo jhi).foldl (fun sum j =>
      (loopRange klo khi).foldl (fun sum k => sum + histo.get (index i j k)) sum) 0
    let total := s.1 + sum
    (total, s.2.set i total)) (0, GoMap.empty)

/-- The statements of `medianCutApply` from the declaration of `cutColor` up to the
assignment of `dim1` and `dim2`, for the widths `rw`, `gw`, `bw` and their `maxw`. -/
def cutLocals (v : vbox) (rw gw _bw maxw : Int) : CutLocals :=
  let (cutColor, total, partialsum) : String × Int × GoMap :=
    if maxw = rw then
      let s := accumulate v.histo (fun i j k => getColorIndex i j k)
        v.r1 v.r2 v.g1 v.g2 v.b1 v.b2
      ("r", s.1, s.2)
    else if maxw = gw then
      let s := accumulate v.histo (fun i j k => getColorIndex j i k)
        v.g1 v.g2 v.r1 v.r2 v.b1 v.b2
      ("g", s.1, s.2)
    else
      let s := accumulate v.histo (fun i j k => getColorIndex j k i)
        v.b1 v.b2 v.r1 v.r2 v.g1 v.g2
      ("b", s.1, s.2)
  let lookaheadsum : GoMap := ⟨fun i => (partialsum.lookup i).map (fun d => total - d)⟩
  let (dim1, dim2) : Int × Int :=
    if cutColor = "r" then (v.r1, v.r2)
    else if cutColor = "g" then (v.g1, v.g2)
    else if cutColor = "b" then (v.b1, v.b2)
    else (0, 0)
  { cutColor := cutColor, total := total, partialsum := partialsum,
    lookaheadsum := lookaheadsum, dim1 := dim1, dim2 := dim2 }

/-- The last loop of `medianCutApply`.  Its body assigns only to variables declared
inside it (`vbox1`, `vbox2`, `left`, `right`, `d2`); the list returned here holds, for
every `i` at which the test succeeds, the pair of `i` and the value given to `d2`. -/
def cutLoop (l : CutLocals) : List (Int × Int) :=
  (loopRange l.dim1 l.dim2).filterMap (fun i =>
    if l.partialsum.get i > Int.tdiv l.total 2 then
      let left := i - l.dim1
      let right := l.dim2 - i
      if left ≤ right then some (i, min [l.dim2 - 1, i + Int.tdiv right 2])
      else some (i, max [l.dim1, i - 1 - Int.tdiv left 2])
    else none)

/-- The function `medianCutApply`, returning next to its two results `(v1, v2)` the
local variables with which its last loop is entered (`none` on the early returns). -/
def medianCutRun (v : vbox) : (vbox × vbox) × Option CutLocals :=
  let v1 := vbox.zero
  let v2 := vbox.zero
  if v.count = 0 then ((v1, v2), none)
  else
    let rw := v.r2 - v.r1 + 1
    let gw := v.g2 - v.g1 + 1
    let bw := v.b2 - v.b1 + 1
    let maxw := max [rw, gw, bw]
    if v.count = 1 then ((v, v2), none)
    else
      let l := cutLocals v rw gw bw maxw
      let _ := cutLoop l
      ((v1, v2), some l)

/-- The function `medianCutApply`. -/
def medianCutApply (v : vbox) : vbox × vbox := (medianCutRun v).1

/-! ## Concrete boxes and pixels -/

/-- The seed box of the single sample `samplePixel`. -/
def seedOne : vbox := vboxFromPixels [samplePixel] (getHistogram [samplePixel])

/-- The seed box of two samples equal to `samplePixel`. -/
def seedTwo : vbox :=
  vboxFromPixels [samplePixel, samplePixel] (getHistogram [samplePixel, samplePixel])

/-- The seed box of three samples equal to `samplePixel`. -/
def seedThree : vbox :=
  vboxFromPixels [samplePixel, samplePixel, samplePixel]
    (getHistogram [samplePixel, samplePixel, samplePixel])

/-- A pixel with green channel 40 and red and blue channels 0. -/
def greenPixel : Color := ⟨0, 40, 0, 255⟩

/-- A reading of `RGBAint`: the four channels, converted to `int`. -/
def channelsRGBAint (c : Color) : Int × Int × Int × Int :=
  ((c.R : Int), (c.G : Int), (c.B : Int), (c.A : Int))

/-- Another reading of `RGBAint`: the three colour channels shifted right by `rshift`. -/
def quantizedRGBAint (c : Color) : Int × Int × Int × Int :=
  (((c.R >>> rshift : Nat) : Int), ((c.G >>> rshift : Nat) : Int),
    ((c.B >>> rshift : Nat) : Int), (c.A : Int))

/-! ## Auxiliary definitions for boxes -/

/-- The three quantised colour channels of a sample. -/
def quantized (p : Color) : Int × Int × Int :=
  (((p.R >>> rshift : Nat) : Int), ((p.G >>> rshift : Nat) : Int),
    ((p.B >>> rshift : Nat) : Int))

/-- The sum of `f i` for `i` from `lo` to `hi`. -/
def rangeSum (lo hi : Int) (f : Int → Int) : Int := ((loopRange lo hi).map f).sum

/-- The box `v` with the range of the dimension `cutColor` cut down to end at `i`. -/
def vbox.restrict (v : vbox) (cutColor : String) (i : Int) : vbox :=
  if cutColor = "r" then { v with r2 := i }
  else if cutColor = "g" then { v with g2 := i }
  else { v with b2 := i }

/-- The step of the outer loop of `accumulate`, for the slice sums `slice`. -/
def accumulateStep (slice : Int → Int) (s : Int × GoMap) (i : Int) : Int × GoMap :=
  (s.1 + slice i, s.2.set i (s.1 + slice i))

/-! ## `float32` arithmetic and the method `avg` -/

/-- The integer nearest to `x`, the even one of the two when `x` lies half-way. -/
def roundHalfEven (x : ℚ) : Int :=
  if x - ⌊x⌋ < 1 / 2 then ⌊x⌋
  else if 1 / 2 < x - ⌊x⌋ then ⌊x⌋ + 1
  else if ⌊x⌋ % 2 = 0 then ⌊x⌋ else ⌊x⌋ + 1

/-- Rounding of a rational to the nearest `float32` value (24 significant bits, ties to
even), in the range of the normal numbers. -/
def f32round (x : ℚ) : ℚ :=
  if x = 0 then 0
  else (roundHalfEven (x / 2 ^ (Int.log 2 |x| - 23)) : ℚ) * 2 ^ (Int.log 2 |x| - 23)

/-- The conversion `float32(n)` of an `int`. -/
def f32ofInt (n : Int) : ℚ := f32round (n : ℚ)

/-- The `float32` sum. -/
def f32add (x y : ℚ) : ℚ := f32round (x + y)

/-- The `float32` product. -/
def f32mul (x y : ℚ) : ℚ := f32round (x * y)

/-- The `float32` quotient. -/
def f32div (x y : ℚ) : ℚ := f32round (x / y)

/-- The conversion `int(x)` of a `float32`: truncation towards zero. -/
def f32toInt (x : ℚ) : Int := if 0 ≤ x then ⌊x⌋ else ⌈x⌉

/-- The four accumulators of `avg`. -/
structure AvgSums where
  ntot : ℚ
  r_sum : ℚ
  g_sum : ℚ
  b_sum : ℚ
deriving DecidableEq

/-- The body of the innermost loop of `avg`. -/
def avgBody (histo : GoMap) (mult : ℚ) (s : AvgSums) (i j k : Int) : AvgSums :=
  let index := getColorIndex i j k
  let hval := f32ofInt (histo.get index)
  { ntot := f32add s.ntot hval,
    r_sum := f32add s.r_sum (f32mul (f32mul hval (f32add (f32ofInt i) (1 / 2))) mult),
    g_sum := f32add s.g_sum (f32mul (f32mul hval (f32add (f32ofInt j) (1 / 2))) mult),
    b_sum := f32add s.b_sum (f32mul (f32mul hval (f32add (f32ofInt k) (1 / 2))) mult) }

/-- The three nested loops of `avg`. -/
def avgLoop (v : vbox) (mult : ℚ) : AvgSums :=
  (loopRange v.r1 v.r2).foldl (fun s i =>
    (loopRange v.g1 v.g2).foldl (fun s j =>
      (loopRange v.b1 v.b2).foldl (fun s k => avgBody v.histo mult s i j k) s) s)
    { ntot := 0, r_sum := 0, g_sum := 0, b_sum := 0 }

/-- The method `avg`. -/
def vbox.avg (v : vbox) : Int × Int × Int :=
  let mult := f32ofInt (shl 1 (8 - sigbits))
  let s := avgLoop v mult
  if s.ntot > 0 then
    (f32toInt (f32div s.r_sum s.ntot), f32toInt (f32div s.g_sum s.ntot),
      f32toInt (f32div s.b_sum s.ntot))
  else
    (Int.tdiv (f32toInt mult * (v.r1 + v.r2 + 1)) 2,
      Int.tdiv (f32toInt mult * (v.g1 + v.g2 + 1)) 2,
      Int.tdiv (f32toInt mult * (v.b1 + v.b2 + 1)) 2)

/-- The cells `(i, j, k)` of a box, in the order of the three nested loops. -/
def vbox.cells (v : vbox) : List (Int × Int × Int) :=
  (loopRange v.r1 v.r2).flatMap (fun i =>
    (loopRange v.g1 v.g2).flatMap (fun j =>
      (loopRange v.b1 v.b2).map (fun k => (i, j, k))))

/-- The histogram entry of a cell. -/
def vbox.cellCount (v : vbox) (c : Int × Int × Int) : Int :=
  v.histo.get (getColorIndex c.1 c.2.1 c.2.2)

/-- The population-weighted centroid of a box along the coordinate `coord`, in exact
arithmetic, in the words of the specification: the sum over the cells of
`h(cell) * (coord + 1/2) * 8`, divided by the sum over the cells of `h(cell)`. -/
def vbox.centroid (v : vbox) (coord : Int × Int × Int → Int) : ℚ :=
  (v.cells.map (fun c => (v.cellCount c : ℚ) * ((coord c : ℚ) + 1 / 2) * 8)).sum /
    (v.cells.map (fun c => (v.cellCount c : ℚ))).sum

/-- A box of two cells, `(16, 0, 0)` with 114689 pixels and `(17, 0, 0)` with 16384. -/
def twoCellBox : vbox :=
  { r1 := 16, r2 := 17, g1 := 0, g2 := 0, b1 := 0, b2 := 0,
    histo := (GoMap.empty.set (getColorIndex 16 0 0) 114689).set (getColorIndex 17 0 0) 16384 }

/-- The sum over the cells of `(2 * coord + 1) * h(cell)`. -/
def vbox.moment (v : vbox) (coord : Int × Int × Int → Int) : Int :=
  (v.cells.map (fun c => (2 * coord c + 1) * v.cellCount c)).sum

/-! ## The quantised index -/

theorem getColorIndex_eq (r g b : Int) : getColorIndex r g b = 20 * r + 32 * g + b := by
  simp only [getColorIndex, shl, sigbits]
  push_cast
  ring

/-- C8: on the source, `getColorIndex 1 0 0` is `20`, not `1 * 1024 + 0 * 32 + 0`:
the red channel is multiplied by `(1 << 2) * sigbits = 20`, not by `1 << 10`. -/
theorem getColorIndex_red_weight :
    getColorIndex 1 0 0 = 20 ∧ getColorIndex 1 0 0 ≠ 1 * 1024 + 0 * 32 + 0 := by
  constructor <;> simp [getColorIndex_eq]

/-- C9: on the source, the two distinct cells `(1, 0, 0)` and `(0, 0, 20)` of the
reduced colour cube receive the same index. -/
theorem getColorIndex_collision :
    getColorIndex 1 0 0 = getColorIndex 0 0 20 ∧ ((1 : Int), (0 : Int), (0 : Int)) ≠ (0, 0, 20) := by
  constructor
  · simp [getColorIndex_eq]
  · decide

/-- C10: for quantised channel values in `[0, 31]` the index returned by
`getColorIndex` is non-negative and below `2 ^ (3 * sigbits) = 32768`. -/
theorem getColorIndex_range (r g b : Int) (hr : 0 ≤ r ∧ r ≤ 31) (hg : 0 ≤ g ∧ g ≤ 31)
    (hb : 0 ≤ b ∧ b ≤ 31) :
    0 ≤ getColorIndex r g b ∧ getColorIndex r g b < 2 ^ (3 * sigbits) ∧
      (2 : Int) ^ (3 * sigbits) = 32768 := by
  rw [getColorIndex_eq]
  have h : (2 : Int) ^ (3 * sigbits) = 32768 := by simp [sigbits]
  rw [h]
  omega

theorem getColorIndex_range_witness :
    0 ≤ getColorIndex 31 31 31 ∧ getColorIndex 31 31 31 < 2 ^ (3 * sigbits) ∧
      (2 : Int) ^ (3 * sigbits) = 32768 :=
  getColorIndex_range 31 31 31 (by decide) (by decide) (by decide)

/-! ## The histogram -/

theorem histogramStep_lookup (h : GoMap) (p : Color) (v : Int) :
    (histogramStep h p).lookup v =
      if v = sampleIndex p then
        (match h.lookup v with
          | some n => some (n + 1)
          | none => some 0)
      else h.lookup v := by
  unfold histogramStep
  simp only [Color.RGBA]
  change (if h.has (sampleIndex p) then h.set (sampleIndex p) (h.get (sampleIndex p) + 1)
    else h.set (sampleIndex p) 0).lookup v = _
  by_cases hv : v = sampleIndex p
  · subst hv
    cases hl : h.lookup (sampleIndex p) <;> simp [GoMap.has, GoMap.set, GoMap.get, hl]
  · cases hl : h.lookup (sampleIndex p) <;> simp [GoMap.has, GoMap.set, GoMap.get, hl, hv]

theorem countIndex_cons (p : Color) (l : List Color) (v : Int) :
    countIndex (p :: l) v = (if v = sampleIndex p then 1 else 0) + countIndex l v := by
  unfold countIndex
  by_cases hv : v = sampleIndex p
  · subst hv; simp [List.filter_cons]; omega
  · have hv2 : ¬ sampleIndex p = v := fun h => hv h.symm
    simp [List.filter_cons, hv, hv2]

theorem foldl_histogramStep_lookup (l : List Color) (v : Int) :
    ∀ (h : GoMap) (c : Nat), h.lookup v = histogramEntry c →
      (l.foldl histogramStep h).lookup v = histogramEntry (c + countIndex l v) := by
  induction l with
  | nil => intro h c hc; simpa [countIndex] using hc
  | cons p l ih =>
    intro h c hc
    rw [List.foldl_cons, countIndex_cons]
    by_cases hv : v = sampleIndex p
    · have := ih (histogramStep h p) (c + 1) (by
        rw [histogramStep_lookup, if_pos hv, hc]
        unfold histogramEntry
        by_cases h0 : c = 0
        · simp [h0]
        · simp [h0])
      rw [this, if_pos hv]
      congr 1; omega
    · have := ih (histogramStep h p) c (by rw [histogramStep_lookup, if_neg hv, hc])
      rw [this, if_neg hv]
      congr 1; omega

/-- What `getHistogram` computes: an index seen `c >= 1` times is mapped to `c - 1`,
an index never seen is missing. -/
theorem getHistogram_lookup (samples : List Color) (v : Int) :
    (getHistogram samples).lookup v = histogramEntry (countIndex samples v) := by
  have := foldl_histogramStep_lookup samples v GoMap.empty 0 (by simp [GoMap.empty, histogramEntry])
  simpa [getHistogram] using this

theorem getHistogram_get (samples : List Color) (v : Int) :
    (getHistogram samples).get v = ((countIndex samples v - 1 : Nat) : Int) := by
  unfold GoMap.get
  rw [getHistogram_lookup]
  unfold histogramEntry
  by_cases h0 : countIndex samples v = 0
  · simp [h0]
  · simp [h0]; omega

/-- C7: on the source, the histogram of the single sample `(10, 20, 30, 255)` holds `0`
at that sample's quantised index `getColorIndex 1 2 3`, although one sample of the
list maps to this index: the first occurrence of an index is stored as `0`. -/
theorem getHistogram_first_occurrence :
    sampleIndex samplePixel = getColorIndex 1 2 3 ∧
    countIndex [samplePixel] (getColorIndex 1 2 3) = 1 ∧
    (getHistogram [samplePixel]).get (getColorIndex 1 2 3) = 0 := by
  decide

/-! ## The sampling loop -/

theorem strideCount_of_le (n q x : Int) (hq : 1 ≤ q) (hx : n ≤ x) :
    strideCount (n - x) q = 0 := by
  unfold strideCount
  have h : (n - x + q - 1) / q < 1 := Int.ediv_lt_of_lt_mul (by omega) (by omega)
  omega

theorem strideCount_of_lt (n q x : Int) (hq : 1 ≤ q) (hx : x < n) :
    strideCount (n - x) q = strideCount (n - (x + q)) q + 1 := by
  unfold strideCount
  have e : n - x + q - 1 = (n - (x + q) + q - 1) + 1 * q := by ring
  rw [e, Int.add_mul_ediv_right _ _ (by omega : q ≠ 0)]
  have h : 0 ≤ (n - (x + q) + q - 1) / q := Int.ediv_nonneg (by omega) (by omega)
  omega

theorem pixelAt_of_lt (pixels : List Color) (x : Int) (h0 : 0 ≤ x)
    (hx : x < (pixels.length : Int)) : ∃ px, pixelAt pixels x = some px := by
  have hlt : x.toNat < pixels.length := by omega
  exact ⟨pixels.get ⟨x.toNat, hlt⟩, by simp [pixelAt, h0, List.get?_eq_get hlt]⟩

theorem sampleBody_eq (validPixels : List Color) (px : Color) :
    sampleBody validPixels px = if passesFilter px then validPixels ++ [px] else validPixels := by
  unfold sampleBody passesFilter
  simp only [Color.RGBA]
  by_cases ha : px.A > 125
  · by_cases hw : px.R > 250 ∧ px.G > 250 ∧ px.B > 250
    · simp [ha, hw]
    · have hw2 : (decide (px.R > 250) && decide (px.G > 250) && decide (px.B > 250)) = false := by
        simp only [Bool.and_eq_false_iff, decide_eq_false_iff_not]
        tauto
      simp only [ha, hw, hw2]
      simp
  · simp [ha]

theorem positionsFrom_succ (x q : Int) (m : Nat) :
    positionsFrom x q (m + 1) = x :: positionsFrom (x + q) q m := by
  unfold positionsFrom
  rw [List.range_succ_eq_map, List.map_cons, List.map_map]
  simp only [Nat.cast_zero, zero_mul, add_zero, List.cons.injEq, true_and]
  apply List.map_congr_left
  intro k _
  simp only [Function.comp, Nat.succ_eq_add_one, Nat.cast_add, Nat.cast_one]
  ring

theorem sampleLoop_run (pixels : List Color) (n q : Int) (hq : 1 ≤ q)
    (hn : n ≤ (pixels.length : Int)) :
    ∀ (m : Nat) (x : Int) (fuel : Nat) (validPixels : List Color) (visited : List Int),
      0 ≤ x → strideCount (n - x) q = m → m < fuel →
      sampleLoop pixels n q fuel x validPixels visited =
        .done (validPixels ++ keptAt pixels (positionsFrom x q m),
          visited ++ positionsFrom x q m) := by
  intro m
  induction m with
  | zero =>
    intro x fuel validPixels visited _ hm hfuel
    obtain ⟨f, rfl⟩ : ∃ f, fuel = f + 1 := ⟨fuel - 1, by omega⟩
    have hx : ¬ x < n := by
      intro hlt
      rw [strideCount_of_lt n q x hq hlt] at hm
      omega
    simp [sampleLoop, hx, positionsFrom, keptAt]
  | succ m ih =>
    intro x fuel validPixels visited h0 hm hfuel
    obtain ⟨f, rfl⟩ : ∃ f, fuel = f + 1 := ⟨fuel - 1, by omega⟩
    have hx : x < n := by
      by_contra hge
      rw [strideCount_of_le n q x hq (by omega)] at hm
      omega
    obtain ⟨px, hpx⟩ := pixelAt_of_lt pixels x h0 (by omega)
    have hm2 : strideCount (n - (x + q)) q = m := by
      have := strideCount_of_lt n q x hq hx
      omega
    rw [sampleLoop, if_pos hx]
    simp only [hpx]
    rw [ih (x + q) f _ _ (by omega) hm2 (by omega), positionsFrom_succ, sampleBody_eq]
    congr 1
    by_cases hk : passesFilter px
    · simp [keptAt, hpx, hk, List.filter_cons]
    · simp [keptAt, hpx, hk, List.filter_cons]

theorem positionsFrom_zero (q : Int) (m : Nat) : positionsFrom 0 q m = stridePositions q m := by
  simp [positionsFrom, stridePositions]

theorem lt_strideCount_iff (n q : Int) (hq : 1 ≤ q) (h0 : 0 ≤ n) (k : Nat) :
    k < strideCount n q ↔ (k : Int) * q < n := by
  unfold strideCount
  have h3 : 0 ≤ (n + q - 1) / q := Int.ediv_nonneg (by omega) (by omega)
  have h4 : ((k : Int) + 1 ≤ (n + q - 1) / q) ↔ ((k : Int) + 1) * q ≤ n + q - 1 :=
    Int.le_ediv_iff_mul_le (by omega)
  have h5 : ((k : Int) + 1) * q = (k : Int) * q + q := by ring
  rw [h5] at h4
  constructor
  · intro h
    have : (k : Int) + 1 ≤ (n + q - 1) / q := by omega
    have := h4.mp this
    omega
  · intro h
    have : (k : Int) + 1 ≤ (n + q - 1) / q := h4.mpr (by omega)
    omega

theorem mem_stridePositions (n q : Int) (hq : 1 ≤ q) (h0 : 0 ≤ n) (x : Int) :
    x ∈ stridePositions q (strideCount n q) ↔ (0 ≤ x ∧ x < n ∧ q ∣ x) := by
  unfold stridePositions
  simp only [List.mem_map, List.mem_range]
  constructor
  · rintro ⟨k, hk, rfl⟩
    refine ⟨by positivity, (lt_strideCount_iff n q hq h0 k).mp hk, Dvd.intro_left _ rfl⟩
  · rintro ⟨hx0, hxn, ⟨c, rfl⟩⟩
    have hc : 0 ≤ c := by
      by_contra hneg
      have : q * c < 0 := by nlinarith
      omega
    refine ⟨c.toNat, ?_, ?_⟩
    · rw [lt_strideCount_iff n q hq h0]
      rw [Int.toNat_of_nonneg hc, mul_comm]
      exact hxn
    · rw [Int.toNat_of_nonneg hc, mul_comm]

theorem strideCount_eq_ceil (n q : Int) (hq : 1 ≤ q) (h0 : 0 ≤ n) :
    (strideCount n q : Int) = ⌈(n : ℚ) / (q : ℚ)⌉ := by
  symm
  rw [Int.ceil_eq_iff]
  have hqpos : (0 : ℚ) < (q : ℚ) := by exact_mod_cast (by omega : 0 < q)
  unfold strideCount
  have h3 : 0 ≤ (n + q - 1) / q := Int.ediv_nonneg (by omega) (by omega)
  rw [Int.toNat_of_nonneg h3]
  have hmod := Int.emod_add_ediv (n + q - 1) q
  have hlt := Int.emod_lt_of_pos (n + q - 1) (by omega : 0 < q)
  have hge := Int.emod_nonneg (n + q - 1) (by omega : q ≠ 0)
  set d := (n + q - 1) / q with hd
  constructor
  · rw [lt_div_iff₀ hqpos]
    have : (d - 1) * q < n := by nlinarith
    exact_mod_cast this
  · rw [div_le_iff₀ hqpos]
    have : n ≤ d * q := by nlinarith
    exact_mod_cast this

theorem Palette_done_nil (fuel : Nat) (p : Params) (out : List HexColor)
    (h : Palette fuel p = .done out) : out = [] := by
  unfold Palette at h
  dsimp only at h
  generalize sampleLoop p.Img.Pixels (p.Img.Width * p.Img.Height) p.Quality fuel 0 [] [] = r at h
  cases r with
  | done a => simpa using h.symm
  | indexOutOfRange k => simp at h
  | outOfFuel => simp at h

theorem sampleLoop_from_zero (img : UnpackedImage) (q : Int) (hq : 1 ≤ q)
    (hwf : img.WellFormed) (fuel : Nat)
    (hfuel : strideCount (img.Width * img.Height) q < fuel) :
    sampleLoop img.Pixels (img.Width * img.Height) q fuel 0 [] [] =
      .done (keptAt img.Pixels (stridePositions q (strideCount (img.Width * img.Height) q)),
        stridePositions q (strideCount (img.Width * img.Height) q)) := by
  have h := sampleLoop_run img.Pixels (img.Width * img.Height) q hq
    (by unfold UnpackedImage.WellFormed at hwf; omega)
    (strideCount (img.Width * img.Height) q) 0 fuel [] [] (le_refl 0) (by simp) hfuel
  simpa [positionsFrom_zero] using h

theorem Palette_eq_nil (p : Params) (hq : 1 ≤ p.Quality) (hwf : p.Img.WellFormed)
    (fuel : Nat) (hfuel : strideCount (p.Img.Width * p.Img.Height) p.Quality < fuel) :
    Palette fuel p = .done [] := by
  unfold Palette
  simp only [sampleLoop_from_zero p.Img p.Quality hq hwf fuel hfuel]

/-- C1: for every well-formed image, every quality `>= 1` and every count `>= 2`,
`Palette` returns (with any fuel above the number of visited positions) a sequence of
length at most `count`. -/
theorem Palette_length_le_count (p : Params) (hq : 1 ≤ p.Quality) (hc : 2 ≤ p.Count)
    (hwf : p.Img.WellFormed) :
    ∃ palette : List HexColor,
      (∀ fuel, strideCount (p.Img.Width * p.Img.Height) p.Quality < fuel →
        Palette fuel p = .done palette) ∧
      (palette.length : Int) ≤ p.Count :=
  ⟨[], fun fuel hfuel => Palette_eq_nil p hq hwf fuel hfuel, by simp; omega⟩

theorem Palette_length_le_count_witness :
    ∃ palette : List HexColor,
      (∀ fuel, strideCount (uniformImage.Width * uniformImage.Height) 1 < fuel →
        Palette fuel ⟨uniformImage, 1, 2⟩ = .done palette) ∧
      (palette.length : Int) ≤ 2 :=
  Palette_length_le_count ⟨uniformImage, 1, 2⟩ (by decide) (by decide) (by decide)

/-- C2: on the source, for the one-pixel image whose pixel `(10, 20, 30, 255)` passes the
sampling filter, `Palette` with quality 1 and count 1 returns the empty sequence, which
has no first entry, and `DominantColor` returns the constant `FFFFFF`. -/
theorem Palette_count_one_empty :
    passesFilter samplePixel ∧
    Palette 2 ⟨onePixelImage, 1, 1⟩ = .done [] ∧
    (∀ fuel out, Palette fuel ⟨onePixelImage, 1, 1⟩ = .done out → out.head? = none) ∧
    DominantColor ⟨onePixelImage, 1, 1⟩ = "FFFFFF" := by
  refine ⟨by decide, by decide, ?_, rfl⟩
  intro fuel out h
  rw [Palette_done_nil fuel _ out h]
  rfl

/-- C3: on the source, for the 2 x 2 image whose pixels all are the colour
`(10, 20, 30)` with alpha 255, the sampling loop with quality 1 keeps the four pixels,
and `Palette` with quality 1 and count 1 returns the empty sequence, not the single
entry `(10, 20, 30)`. -/
theorem Palette_uniform_empty :
    (∀ px ∈ uniformImage.Pixels, px = samplePixel ∧ passesFilter px) ∧
    sampleLoop uniformImage.Pixels (uniformImage.Width * uniformImage.Height) 1 5 0 [] [] =
      .done (uniformImage.Pixels, [0, 1, 2, 3]) ∧
    Palette 5 ⟨uniformImage, 1, 1⟩ = .done [] ∧
    (∀ fuel out, Palette fuel ⟨uniformImage, 1, 1⟩ = .done out → out.length = 0) := by
  refine ⟨by decide, by decide, by decide, ?_⟩
  intro fuel out h
  rw [Palette_done_nil fuel _ out h]
  rfl

theorem sampleLoop_quality_zero (pixels : List Color) (n : Int) (px : Color)
    (hn : 0 < n) (hpx : pixelAt pixels 0 = some px) :
    ∀ (fuel : Nat) (validPixels : List Color) (visited : List Int),
      sampleLoop pixels n 0 fuel 0 validPixels visited = .outOfFuel := by
  intro fuel
  induction fuel with
  | zero => intro _ _; rfl
  | succ f ih =>
    intro validPixels visited
    rw [sampleLoop, if_pos hn]
    simp only [hpx, add_zero]
    exact ih _ _

/-- C4, as stated, fails: with quality 0 on a one-pixel image `Palette` never returns,
whatever the fuel, and with quality -1 it reads `Pixels[-1]`, outside the pixel buffer. -/
theorem Palette_quality_lt_one_counterexample :
    (∀ fuel, Palette fuel ⟨onePixelImage, 0, 2⟩ = .outOfFuel) ∧
    (∀ fuel, Palette (fuel + 2) ⟨onePixelImage, -1, 2⟩ = .indexOutOfRange (-1)) := by
  constructor
  · intro fuel
    unfold Palette
    simp only [sampleLoop_quality_zero onePixelImage.Pixels
      (onePixelImage.Width * onePixelImage.Height) samplePixel (by decide) (by decide) fuel [] []]
  · intro fuel
    simp [Palette, sampleLoop, pixelAt, onePixelImage]

/-- C4, amended: `Palette` does not check `Quality` and has no error result.  For a
quality below 1 and an image without pixels it returns the nil sequence, and whenever
it returns, the result is the nil sequence. -/
theorem Palette_quality_lt_one (p : Params) (_hq : p.Quality < 1) :
    (p.Img.Width * p.Img.Height ≤ 0 → ∀ fuel, Palette (fuel + 1) p = .done []) ∧
    (∀ fuel out, Palette fuel p = .done out → out = []) := by
  constructor
  · intro hn fuel
    have hx : ¬ (0 : Int) < p.Img.Width * p.Img.Height := by omega
    simp [Palette, sampleLoop, hx]
  · intro fuel out h
    exact Palette_done_nil fuel p out h

theorem Palette_quality_lt_one_witness :
    (emptyImage.Width * emptyImage.Height ≤ 0 →
      ∀ fuel, Palette (fuel + 1) ⟨emptyImage, 0, 2⟩ = .done []) ∧
    (∀ fuel out, Palette fuel ⟨emptyImage, 0, 2⟩ = .done out → out = []) :=
  Palette_quality_lt_one ⟨emptyImage, 0, 2⟩ (by decide)

/-- C5: the body of the sampling loop appends the visited pixel, with its own four
channels, at the end of the sample set if and only if its alpha exceeds 125 and its
red, green and blue do not all exceed 250; hence a run of the loop returns, in visiting
order, the visited pixels that pass this filter. -/
theorem sampleLoop_keeps_filtered (img : UnpackedImage) (q : Int) (hq : 1 ≤ q)
    (hwf : img.WellFormed) (fuel : Nat)
    (hfuel : strideCount (img.Width * img.Height) q < fuel) :
    (∀ (validPixels : List Color) (px : Color),
      sampleBody validPixels px =
        if px.A > 125 ∧ ¬ (px.R > 250 ∧ px.G > 250 ∧ px.B > 250)
        then validPixels ++ [px] else validPixels) ∧
    (∃ visited : List Int,
      visited = stridePositions q (strideCount (img.Width * img.Height) q) ∧
      sampleLoop img.Pixels (img.Width * img.Height) q fuel 0 [] [] =
        .done ((visited.filterMap (pixelAt img.Pixels)).filter
          (fun px => decide (px.A > 125 ∧ ¬ (px.R > 250 ∧ px.G > 250 ∧ px.B > 250))),
          visited)) := by
  refine ⟨fun validPixels px => sampleBody_eq validPixels px, ?_⟩
  exact ⟨_, rfl, sampleLoop_from_zero img q hq hwf fuel hfuel⟩

theorem sampleLoop_keeps_filtered_witness :
    (∀ (validPixels : List Color) (px : Color),
      sampleBody validPixels px =
        if px.A > 125 ∧ ¬ (px.R > 250 ∧ px.G > 250 ∧ px.B > 250)
        then validPixels ++ [px] else validPixels) ∧
    (∃ visited : List Int,
      visited = stridePositions 3 (strideCount (uniformImage.Width * uniformImage.Height) 3) ∧
      sampleLoop uniformImage.Pixels (uniformImage.Width * uniformImage.Height) 3 3 0 [] [] =
        .done ((visited.filterMap (pixelAt uniformImage.Pixels)).filter
          (fun px => decide (px.A > 125 ∧ ¬ (px.R > 250 ∧ px.G > 250 ∧ px.B > 250))),
          visited)) :=
  sampleLoop_keeps_filtered uniformImage 3 (by decide) (by decide) 3 (by decide)

/-- C6: for a well-formed image of `W * H` pixels and a quality `q >= 1` the sampling
loop terminates, and the positions it visits are exactly `0, q, 2q, ...` below `W * H`:
there are `ceil (W * H / q)` of them and each is a valid index of the pixel buffer. -/
theorem sampleLoop_visits_stride (img : UnpackedImage) (q : Int) (hq : 1 ≤ q)
    (hwf : img.WellFormed) (fuel : Nat)
    (hfuel : strideCount (img.Width * img.Height) q < fuel) :
    ∃ (validPixels : List Color) (visited : List Int),
      sampleLoop img.Pixels (img.Width * img.Height) q fuel 0 [] [] =
        .done (validPixels, visited) ∧
      visited = (List.range (strideCount (img.Width * img.Height) q)).map
        (fun (k : Nat) => (k : Int) * q) ∧
      (∀ x : Int, x ∈ visited ↔ (0 ≤ x ∧ x < img.Width * img.Height ∧ q ∣ x)) ∧
      ((visited.length : Int) = ⌈((img.Width * img.Height : Int) : ℚ) / (q : ℚ)⌉) ∧
      (∀ x ∈ visited, 0 ≤ x ∧ x.toNat < img.Pixels.length ∧
        pixelAt img.Pixels x = img.Pixels.get? x.toNat) := by
  have hn : 0 ≤ img.Width * img.Height := by
    unfold UnpackedImage.WellFormed at hwf; omega
  refine ⟨_, _, sampleLoop_from_zero img q hq hwf fuel hfuel, rfl, ?_, ?_, ?_⟩
  · exact mem_stridePositions _ q hq hn
  · rw [← strideCount_eq_ceil _ q hq hn]
    simp [stridePositions]
  · intro x hx
    have := (mem_stridePositions _ q hq hn x).mp hx
    unfold UnpackedImage.WellFormed at hwf
    refine ⟨this.1, by omega, by simp [pixelAt, this.1]⟩

theorem sampleLoop_visits_stride_witness :
    ∃ (validPixels : List Color) (visited : List Int),
      sampleLoop uniformImage.Pixels (uniformImage.Width * uniformImage.Height) 3 3 0 [] [] =
        .done (validPixels, visited) ∧
      visited = (List.range (strideCount (uniformImage.Width * uniformImage.Height) 3)).map
        (fun (k : Nat) => (k : Int) * 3) ∧
      (∀ x : Int, x ∈ visited ↔
        (0 ≤ x ∧ x < uniformImage.Width * uniformImage.Height ∧ (3 : Int) ∣ x)) ∧
      ((visited.length : Int) =
        ⌈((uniformImage.Width * uniformImage.Height : Int) : ℚ) / ((3 : Int) : ℚ)⌉) ∧
      (∀ x ∈ visited, 0 ≤ x ∧ x.toNat < uniformImage.Pixels.length ∧
        pixelAt uniformImage.Pixels x = uniformImage.Pixels.get? x.toNat) :=
  sampleLoop_visits_stride uniformImage 3 (by decide) (by decide) 3 (by decide)

/-! ## Boxes -/

theorem min_pair (a b : Int) (ha : 0 ≤ a) (hb : 0 ≤ b) : min [a, b] = 0 := by
  simp only [min, List.foldl_cons, List.foldl_nil]
  split_ifs <;> omega

theorem max_pair (a b : Int) (ha : 0 ≤ a) : max [a, b] = Max.max a b := by
  simp only [max, List.foldl_cons, List.foldl_nil]
  split_ifs <;> omega

theorem max_triple (a b c : Int) (ha : 0 ≤ a) :
    max [a, b, c] = Max.max a (Max.max b c) := by
  simp only [max, List.foldl_cons, List.foldl_nil]
  split_ifs <;> omega

theorem quantized_nonneg (p : Color) :
    0 ≤ (quantized p).1 ∧ 0 ≤ (quantized p).2.1 ∧ 0 ≤ (quantized p).2.2 := by
  simp only [quantized]
  exact ⟨Int.natCast_nonneg _, Int.natCast_nonneg _, Int.natCast_nonneg _⟩

theorem quantized_le (p : Color) (h : p.R ≤ 255 ∧ p.G ≤ 255 ∧ p.B ≤ 255) :
    (quantized p).1 ≤ 31 ∧ (quantized p).2.1 ≤ 31 ∧ (quantized p).2.2 ≤ 31 := by
  simp only [quantized, rshift, sigbits, Nat.shiftRight_eq_div_pow]
  omega

theorem extentStep_eq (s : Extent) (p : Color) (hs : 0 ≤ s.rmin ∧ 0 ≤ s.gmin ∧ 0 ≤ s.bmin) :
    extentStep s p =
      { rmin := 0, gmin := 0, bmin := 0,
        rmax := Max.max (quantized p).1 s.rmax,
        gmax := Max.max (quantized p).2.1 s.gmax,
        bmax := Max.max (quantized p).2.2 s.bmax } := by
  obtain ⟨h1, h2, h3⟩ := quantized_nonneg p
  simp only [quantized] at h1 h2 h3
  simp only [extentStep, Color.RGBA, quantized]
  rw [min_pair _ _ h1 hs.1, min_pair _ _ h2 hs.2.1, min_pair _ _ h3 hs.2.2,
    max_pair _ _ h1, max_pair _ _ h2, max_pair _ _ h3]

theorem extent_fold (l : List Color) :
    ∀ s : Extent, (0 ≤ s.rmin ∧ 0 ≤ s.gmin ∧ 0 ≤ s.bmin) →
      ((l ≠ [] ∨ (s.rmin = 0 ∧ s.gmin = 0 ∧ s.bmin = 0)) →
        (l.foldl extentStep s).rmin = 0 ∧ (l.foldl extentStep s).gmin = 0 ∧
          (l.foldl extentStep s).bmin = 0) ∧
      (s.rmax ≤ (l.foldl extentStep s).rmax ∧ s.gmax ≤ (l.foldl extentStep s).gmax ∧
        s.bmax ≤ (l.foldl extentStep s).bmax) ∧
      (∀ p ∈ l, (quantized p).1 ≤ (l.foldl extentStep s).rmax ∧
        (quantized p).2.1 ≤ (l.foldl extentStep s).gmax ∧
        (quantized p).2.2 ≤ (l.foldl extentStep s).bmax) ∧
      (∀ M : Int, (s.rmax ≤ M ∧ s.gmax ≤ M ∧ s.bmax ≤ M) →
        (∀ p ∈ l, (quantized p).1 ≤ M ∧ (quantized p).2.1 ≤ M ∧ (quantized p).2.2 ≤ M) →
        (l.foldl extentStep s).rmax ≤ M ∧ (l.foldl extentStep s).gmax ≤ M ∧
          (l.foldl extentStep s).bmax ≤ M) := by
  induction l with
  | nil =>
    intro s _
    refine ⟨?_, ⟨le_refl _, le_refl _, le_refl _⟩, ?_, ?_⟩
    · intro h
      rcases h with h | h
      · exact absurd rfl h
      · exact h
    · intro p hp; simp at hp
    · intro M hM _; exact hM
  | cons p l ih =>
    intro s hs
    rw [List.foldl_cons, extentStep_eq s p hs]
    obtain ⟨ih1, ih2, ih3, ih4⟩ := ih
      { rmin := 0, gmin := 0, bmin := 0,
        rmax := Max.max (quantized p).1 s.rmax,
        gmax := Max.max (quantized p).2.1 s.gmax,
        bmax := Max.max (quantized p).2.2 s.bmax } ⟨le_refl _, le_refl _, le_refl _⟩
    simp only at ih1 ih2 ih3 ih4
    refine ⟨fun _ => ih1 (Or.inr ⟨trivial, trivial, trivial⟩), ?_, ?_, ?_⟩
    · exact ⟨le_trans (le_max_right _ _) ih2.1, le_trans (le_max_right _ _) ih2.2.1,
        le_trans (le_max_right _ _) ih2.2.2⟩
    · intro q hq
      rcases List.mem_cons.mp hq with rfl | hq
      · exact ⟨le_trans (le_max_left _ _) ih2.1, le_trans (le_max_left _ _) ih2.2.1,
          le_trans (le_max_left _ _) ih2.2.2⟩
      · exact ih3 q hq
    · intro M hM hl
      have hp := hl p (List.mem_cons_self _ _)
      exact ih4 M ⟨max_le hp.1 hM.1, max_le hp.2.1 hM.2.1, max_le hp.2.2 hM.2.2⟩
        (fun q hq => hl q (List.mem_cons_of_mem _ hq))

/-- C20: for a non-empty list of samples with channels in `[0, 255]` the seed box of
`vboxFromPixels` satisfies `r1 <= r2`, `g1 <= g2`, `b1 <= b2` with all bounds in
`[0, 31]`, and the quantised channels of every sample lie within its three ranges. -/
theorem vboxFromPixels_invariant (samples : List Color) (histo : GoMap)
    (hne : samples ≠ [])
    (hch : ∀ p ∈ samples, p.R ≤ 255 ∧ p.G ≤ 255 ∧ p.B ≤ 255 ∧ p.A ≤ 255) :
    (0 ≤ (vboxFromPixels samples histo).r1 ∧
      (vboxFromPixels samples histo).r1 ≤ (vboxFromPixels samples histo).r2 ∧
      (vboxFromPixels samples histo).r2 ≤ 31) ∧
    (0 ≤ (vboxFromPixels samples histo).g1 ∧
      (vboxFromPixels samples histo).g1 ≤ (vboxFromPixels samples histo).g2 ∧
      (vboxFromPixels samples histo).g2 ≤ 31) ∧
    (0 ≤ (vboxFromPixels samples histo).b1 ∧
      (vboxFromPixels samples histo).b1 ≤ (vboxFromPixels samples histo).b2 ∧
      (vboxFromPixels samples histo).b2 ≤ 31) ∧
    (∀ p ∈ samples,
      ((vboxFromPixels samples histo).r1 ≤ ((p.R >>> rshift : Nat) : Int) ∧
        ((p.R >>> rshift : Nat) : Int) ≤ (vboxFromPixels samples histo).r2) ∧
      ((vboxFromPixels samples histo).g1 ≤ ((p.G >>> rshift : Nat) : Int) ∧
        ((p.G >>> rshift : Nat) : Int) ≤ (vboxFromPixels samples histo).g2) ∧
      ((vboxFromPixels samples histo).b1 ≤ ((p.B >>> rshift : Nat) : Int) ∧
        ((p.B >>> rshift : Nat) : Int) ≤ (vboxFromPixels samples histo).b2)) := by
  obtain ⟨h1, h2, h3, h4⟩ := extent_fold samples
    { rmin := 1000000, gmin := 1000000, bmin := 1000000, rmax := 0, gmax := 0, bmax := 0 }
    ⟨by decide, by decide, by decide⟩
  obtain ⟨hr, hg, hb⟩ := h1 (Or.inl hne)
  obtain ⟨ur, ug, ub⟩ := h4 31 ⟨by decide, by decide, by decide⟩
    (fun p hp => quantized_le p ⟨(hch p hp).1, (hch p hp).2.1, (hch p hp).2.2.1⟩)
  simp only at h2 hr hg hb ur ug ub
  simp only [vboxFromPixels]
  rw [hr, hg, hb]
  refine ⟨⟨le_refl _, h2.1, ur⟩, ⟨le_refl _, h2.2.1, ug⟩, ⟨le_refl _, h2.2.2, ub⟩, ?_⟩
  intro p hp
  have hq := h3 p hp
  have hn := quantized_nonneg p
  simp only [quantized] at hq hn
  exact ⟨⟨hn.1, hq.1⟩, ⟨hn.2.1, hq.2.1⟩, ⟨hn.2.2, hq.2.2⟩⟩

theorem vboxFromPixels_invariant_witness :
    (0 ≤ (vboxFromPixels [samplePixel, greenPixel] GoMap.empty).r1 ∧
      (vboxFromPixels [samplePixel, greenPixel] GoMap.empty).r1 ≤
        (vboxFromPixels [samplePixel, greenPixel] GoMap.empty).r2 ∧
      (vboxFromPixels [samplePixel, greenPixel] GoMap.empty).r2 ≤ 31) ∧
    (0 ≤ (vboxFromPixels [samplePixel, greenPixel] GoMap.empty).g1 ∧
      (vboxFromPixels [samplePixel, greenPixel] GoMap.empty).g1 ≤
        (vboxFromPixels [samplePixel, greenPixel] GoMap.empty).g2 ∧
      (vboxFromPixels [samplePixel, greenPixel] GoMap.empty).g2 ≤ 31) ∧
    (0 ≤ (vboxFromPixels [samplePixel, greenPixel] GoMap.empty).b1 ∧
      (vboxFromPixels [samplePixel, greenPixel] GoMap.empty).b1 ≤
        (vboxFromPixels [samplePixel, greenPixel] GoMap.empty).b2 ∧
      (vboxFromPixels [samplePixel, greenPixel] GoMap.empty).b2 ≤ 31) ∧
    (∀ p ∈ [samplePixel, greenPixel],
      ((vboxFromPixels [samplePixel, greenPixel] GoMap.empty).r1 ≤
          ((p.R >>> rshift : Nat) : Int) ∧
        ((p.R >>> rshift : Nat) : Int) ≤
          (vboxFromPixels [samplePixel, greenPixel] GoMap.empty).r2) ∧
      ((vboxFromPixels [samplePixel, greenPixel] GoMap.empty).g1 ≤
          ((p.G >>> rshift : Nat) : Int) ∧
        ((p.G >>> rshift : Nat) : Int) ≤
          (vboxFromPixels [samplePixel, greenPixel] GoMap.empty).g2) ∧
      ((vboxFromPixels [samplePixel, greenPixel] GoMap.empty).b1 ≤
          ((p.B >>> rshift : Nat) : Int) ∧
        ((p.B >>> rshift : Nat) : Int) ≤
          (vboxFromPixels [samplePixel, greenPixel] GoMap.empty).b2)) :=
  vboxFromPixels_invariant [samplePixel, greenPixel] GoMap.empty (by decide) (by decide)

/-- C17: on the source, the seed box of the single sample `(10, 20, 30, 255)`, whose
quantised channels are `(1, 2, 3)`, has the lower bounds `r1 = g1 = b1 = 0` instead of
the observed minima `1`, `2`, `3`; its upper bounds are the observed maxima. -/
theorem vboxFromPixels_lower_bounds :
    (((samplePixel.R >>> rshift : Nat) : Int) = 1 ∧
      ((samplePixel.G >>> rshift : Nat) : Int) = 2 ∧
      ((samplePixel.B >>> rshift : Nat) : Int) = 3) ∧
    ((vboxFromPixels [samplePixel] (getHistogram [samplePixel])).r1 = 0 ∧
      (vboxFromPixels [samplePixel] (getHistogram [samplePixel])).g1 = 0 ∧
      (vboxFromPixels [samplePixel] (getHistogram [samplePixel])).b1 = 0) ∧
    ((vboxFromPixels [samplePixel] (getHistogram [samplePixel])).r2 = 1 ∧
      (vboxFromPixels [samplePixel] (getHistogram [samplePixel])).g2 = 2 ∧
      (vboxFromPixels [samplePixel] (getHistogram [samplePixel])).b2 = 3) ∧
    min [1, 1000000] = 0 := by
  decide

/-- C16: on the source, `contains` is true for the box `[0,0] x [0,0] x [0,0]` and the
pixel `(0, 40, 0, 255)`, under both readings of `RGBAint`, although the quantised green
value `5` of the pixel lies outside `[g1, g2] = [0, 0]`: the upper bound `g2` is compared
with the red value. -/
theorem contains_green_upper_bound :
    vbox.contains channelsRGBAint vbox.zero greenPixel = true ∧
    vbox.contains quantizedRGBAint vbox.zero greenPixel = true ∧
    ((greenPixel.G >>> rshift : Nat) : Int) = 5 ∧
    ¬ (vbox.zero.g1 ≤ ((greenPixel.G >>> rshift : Nat) : Int) ∧
      ((greenPixel.G >>> rshift : Nat) : Int) ≤ vbox.zero.g2) := by
  decide

/-- C11: on the source, the seed box of the single sample `(10, 20, 30, 255)` over the
histogram of that sample has `count() = 0`, although the list holds one sample and its
quantised channels `(1, 2, 3)` lie in the box `[0,1] x [0,2] x [0,3]`. -/
theorem count_seed_single :
    seedOne = vboxFromPixels [samplePixel] (getHistogram [samplePixel]) ∧
    (seedOne.r1 ≤ ((samplePixel.R >>> rshift : Nat) : Int) ∧
      ((samplePixel.R >>> rshift : Nat) : Int) ≤ seedOne.r2 ∧
      seedOne.g1 ≤ ((samplePixel.G >>> rshift : Nat) : Int) ∧
      ((samplePixel.G >>> rshift : Nat) : Int) ≤ seedOne.g2 ∧
      seedOne.b1 ≤ ((samplePixel.B >>> rshift : Nat) : Int) ∧
      ((samplePixel.B >>> rshift : Nat) : Int) ≤ seedOne.b2) ∧
    [samplePixel].length = 1 ∧
    seedOne.count = 0 := by
  refine ⟨rfl, by decide, rfl, by decide⟩

/-- C12: on the source, the seed box of three samples `(10, 20, 30, 255)` has
`count() = 2` and satisfies the box invariant, and the two boxes returned for it by
`medianCutApply` have `count() = 0` each, so their populations sum to `0`, not `2`. -/
theorem medianCutApply_population :
    (seedThree.r1 ≤ seedThree.r2 ∧ seedThree.g1 ≤ seedThree.g2 ∧
      seedThree.b1 ≤ seedThree.b2) ∧
    seedThree.count = 2 ∧
    (medianCutApply seedThree).1.count + (medianCutApply seedThree).2.count = 0 := by
  decide

theorem medianCutRun_of_ge (v : vbox) (h : 2 ≤ v.count) :
    medianCutRun v =
      ((vbox.zero, vbox.zero),
        some (cutLocals v (v.r2 - v.r1 + 1) (v.g2 - v.g1 + 1) (v.b2 - v.b1 + 1)
          (max [v.r2 - v.r1 + 1, v.g2 - v.g1 + 1, v.b2 - v.b1 + 1]))) := by
  have h0 : ¬ v.count = 0 := by omega
  have h1 : ¬ v.count = 1 := by omega
  simp only [medianCutRun, h0, h1, if_false]

/-- C13, as stated, fails: the seed box of the single sample `(10, 20, 30, 255)` has
`count() = 0`, and `medianCutApply` returns for it the zero-value box, not the box
itself, as its first output. -/
theorem medianCutApply_empty_counterexample :
    seedOne.count = 0 ∧ (medianCutApply seedOne).1 ≠ seedOne := by
  refine ⟨by decide, fun h => ?_⟩
  have h2 : (medianCutApply seedOne).1.r2 = seedOne.r2 := by rw [h]
  revert h2
  decide

/-- C13, amended: for a box with `count() = 1`, `medianCutApply` returns the box itself
as its first output and the zero-value box as its second output; for a box with
`count() = 0` it returns the zero-value box as both outputs. -/
theorem medianCutApply_unsplittable (v : vbox) (h : v.count = 0 ∨ v.count = 1) :
    (medianCutApply v).2 = vbox.zero ∧
    (v.count = 1 → (medianCutApply v).1 = v) ∧
    (v.count = 0 → (medianCutApply v).1 = vbox.zero) := by
  rcases h with h | h
  · simp [medianCutApply, medianCutRun, h]
  · simp [medianCutApply, medianCutRun, h]

theorem medianCutApply_unsplittable_witness :
    (medianCutApply seedTwo).2 = vbox.zero ∧
    (seedTwo.count = 1 → (medianCutApply seedTwo).1 = seedTwo) ∧
    (seedTwo.count = 0 → (medianCutApply seedTwo).1 = vbox.zero) :=
  medianCutApply_unsplittable seedTwo (by decide)

/-- C18: for a box with `r1 <= r2`, `g1 <= g2`, `b1 <= b2` and population at least 2,
`medianCutApply` reaches the choice of the cut dimension, and it chooses red iff
`rw >= gw` and `rw >= bw`, green iff `gw > rw` and `gw >= bw`, blue iff `bw > rw` and
`bw > gw`. -/
theorem medianCutApply_cutColor (v : vbox)
    (hinv : v.r1 ≤ v.r2 ∧ v.g1 ≤ v.g2 ∧ v.b1 ≤ v.b2) (hcount : 2 ≤ v.count) :
    ∃ l : CutLocals, (medianCutRun v).2 = some l ∧
      (l.cutColor = "r" ↔
        (v.r2 - v.r1 + 1 ≥ v.g2 - v.g1 + 1 ∧ v.r2 - v.r1 + 1 ≥ v.b2 - v.b1 + 1)) ∧
      (l.cutColor = "g" ↔
        (v.g2 - v.g1 + 1 > v.r2 - v.r1 + 1 ∧ v.g2 - v.g1 + 1 ≥ v.b2 - v.b1 + 1)) ∧
      (l.cutColor = "b" ↔
        (v.b2 - v.b1 + 1 > v.r2 - v.r1 + 1 ∧ v.b2 - v.b1 + 1 > v.g2 - v.g1 + 1)) := by
  refine ⟨_, by rw [medianCutRun_of_ge v hcount], ?_⟩
  rw [max_triple _ _ _ (by omega)]
  simp only [cutLocals]
  split_ifs with hr hg
  · refine ⟨?_, ?_, ?_⟩
    · simp only [true_iff]; omega
    · simp only [show ¬ ("r" : String) = "g" by decide, false_iff]; omega
    · simp only [show ¬ ("r" : String) = "b" by decide, false_iff]; omega
  · refine ⟨?_, ?_, ?_⟩
    · simp only [show ¬ ("g" : String) = "r" by decide, false_iff]; omega
    · simp only [true_iff]; omega
    · simp only [show ¬ ("g" : String) = "b" by decide, false_iff]; omega
  · refine ⟨?_, ?_, ?_⟩
    · simp only [show ¬ ("b" : String) = "r" by decide, false_iff]; omega
    · simp only [show ¬ ("b" : String) = "g" by decide, false_iff]; omega
    · simp only [true_iff]; omega

theorem medianCutApply_cutColor_witness :
    ∃ l : CutLocals, (medianCutRun seedThree).2 = some l ∧
      (l.cutColor = "r" ↔
        (seedThree.r2 - seedThree.r1 + 1 ≥ seedThree.g2 - seedThree.g1 + 1 ∧
          seedThree.r2 - seedThree.r1 + 1 ≥ seedThree.b2 - seedThree.b1 + 1)) ∧
      (l.cutColor = "g" ↔
        (seedThree.g2 - seedThree.g1 + 1 > seedThree.r2 - seedThree.r1 + 1 ∧
          seedThree.g2 - seedThree.g1 + 1 ≥ seedThree.b2 - seedThree.b1 + 1)) ∧
      (l.cutColor = "b" ↔
        (seedThree.b2 - seedThree.b1 + 1 > seedThree.r2 - seedThree.r1 + 1 ∧
          seedThree.b2 - seedThree.b1 + 1 > seedThree.g2 - seedThree.g1 + 1)) :=
  medianCutApply_cutColor seedThree (by decide) (by decide)

/-! ## Sums over loops -/

theorem foldl_add_eq_sum (l : List Int) (f : Int → Int) :
    ∀ a : Int, l.foldl (fun acc x => acc + f x) a = a + (l.map f).sum := by
  induction l with
  | nil => intro a; simp
  | cons x l ih => intro a; simp only [List.foldl_cons, List.map_cons, List.sum_cons, ih]; ring

theorem foldl_loop_eq_rangeSum (lo hi : Int) (f : Int → Int) (a : Int) :
    (loopRange lo hi).foldl (fun acc x => acc + f x) a = a + rangeSum lo hi f :=
  foldl_add_eq_sum _ f a

theorem foldl_add_eq_sum2 (l : List Int) (f : Int → Int) (g : Int → Int → Int)
    (hg : ∀ a x, g a x = a + f x) :
    ∀ a : Int, l.foldl g a = a + (l.map f).sum := by
  have : g = fun acc x => acc + f x := by funext a x; exact hg a x
  rw [this]
  exact foldl_add_eq_sum l f

theorem count_eq_rangeSum (v : vbox) :
    v.count = rangeSum v.r1 v.r2 (fun i => rangeSum v.g1 v.g2 (fun j =>
      rangeSum v.b1 v.b2 (fun k => v.histo.get (getColorIndex i j k)))) := by
  unfold vbox.count rangeSum
  rw [foldl_add_eq_sum2 _ (fun i => ((loopRange v.g1 v.g2).map (fun j =>
      ((loopRange v.b1 v.b2).map (fun k => v.histo.get (getColorIndex i j k))).sum)).sum)]
  · simp
  · intro a i
    rw [foldl_add_eq_sum2 _ (fun j =>
      ((loopRange v.b1 v.b2).map (fun k => v.histo.get (getColorIndex i j k))).sum)]
    intro a j
    exact foldl_add_eq_sum _ _ a

theorem mem_loopRange (lo hi x : Int) : x ∈ loopRange lo hi ↔ lo ≤ x ∧ x ≤ hi := by
  unfold loopRange
  simp only [List.mem_map, List.mem_range]
  constructor
  · rintro ⟨k, hk, rfl⟩; omega
  · rintro ⟨h1, h2⟩
    exact ⟨(x - lo).toNat, by omega, by omega⟩

theorem loopRange_append (lo i hi : Int) (h1 : lo ≤ i + 1) (h2 : i ≤ hi) :
    loopRange lo hi = loopRange lo i ++ loopRange (i + 1) hi := by
  unfold loopRange
  have e : (hi + 1 - lo).toNat = (i + 1 - lo).toNat + (hi + 1 - (i + 1)).toNat := by omega
  rw [e, List.range_add, List.map_append, List.map_map]
  congr 1
  apply List.map_congr_left
  intro k _
  simp only [Function.comp, Nat.cast_add]
  omega

theorem loopRange_single (i : Int) : loopRange i i = [i] := by
  unfold loopRange
  have e : (i + 1 - i).toNat = 1 := by omega
  rw [e]
  show List.map (fun (k : Nat) => i + (k : Int)) [0] = [i]
  simp only [List.map_cons, List.map_nil, Nat.cast_zero, add_zero]

theorem loopRange_snoc (lo i : Int) (h : lo ≤ i) :
    loopRange lo i = loopRange lo (i - 1) ++ [i] := by
  rw [loopRange_append lo (i - 1) i (by omega) (by omega)]
  have : i - 1 + 1 = i := by omega
  rw [this, loopRange_single]

theorem rangeSum_swap (l1 l2 : List Int) (f : Int → Int → Int) :
    (l1.map (fun a => (l2.map (fun b => f a b)).sum)).sum =
      (l2.map (fun b => (l1.map (fun a => f a b)).sum)).sum := by
  induction l1 with
  | nil => simp
  | cons x l ih =>
    simp only [List.map_cons, List.sum_cons, ih]
    rw [← List.sum_map_add]

theorem accumulate_eq (histo : GoMap) (index : Int → Int → Int → Int)
    (lo hi jlo jhi klo khi : Int) :
    accumulate histo index lo hi jlo jhi klo khi =
      (loopRange lo hi).foldl
        (accumulateStep (fun i => rangeSum jlo jhi (fun j =>
          rangeSum klo khi (fun k => histo.get (index i j k))))) (0, GoMap.empty) := by
  unfold accumulate
  congr 1
  funext s i
  have : (loopRange jlo jhi).foldl (fun sum j =>
      (loopRange klo khi).foldl (fun sum k => sum + histo.get (index i j k)) sum) 0 =
      rangeSum jlo jhi (fun j => rangeSum klo khi (fun k => histo.get (index i j k))) := by
    unfold rangeSum
    rw [foldl_add_eq_sum2 _ (fun j =>
      ((loopRange klo khi).map (fun k => histo.get (index i j k))).sum)]
    · simp
    · intro a j
      exact foldl_add_eq_sum _ _ a
  simp only [this, accumulateStep]

theorem foldl_accumulateStep_total (slice : Int → Int) (l : List Int) :
    ∀ s : Int × GoMap, (l.foldl (accumulateStep slice) s).1 = s.1 + (l.map slice).sum := by
  induction l with
  | nil => intro s; simp
  | cons x l ih =>
    intro s
    simp only [List.foldl_cons, List.map_cons, List.sum_cons, ih, accumulateStep]
    ring

theorem foldl_accumulateStep_other (slice : Int → Int) (l : List Int) (i : Int)
    (hi : i ∉ l) :
    ∀ s : Int × GoMap,
      (l.foldl (accumulateStep slice) s).2.lookup i = s.2.lookup i := by
  induction l with
  | nil => intro s; simp
  | cons x l ih =>
    intro s
    have hx : i ≠ x := fun h => hi (h ▸ List.mem_cons_self _ _)
    have hl : i ∉ l := fun h => hi (List.mem_cons_of_mem _ h)
    simp only [List.foldl_cons, ih hl, accumulateStep, GoMap.set, hx, if_false]

theorem foldl_accumulateStep_get (slice : Int → Int) (lo hi i : Int)
    (h1 : lo ≤ i) (h2 : i ≤ hi) :
    ((loopRange lo hi).foldl (accumulateStep slice) (0, GoMap.empty)).2.get i =
      rangeSum lo i slice := by
  have hnot : i ∉ loopRange (i + 1) hi := by
    rw [mem_loopRange]; omega
  rw [loopRange_append lo i hi (by omega) h2, List.foldl_append]
  unfold GoMap.get rangeSum
  rw [foldl_accumulateStep_other slice _ i hnot, loopRange_snoc lo i h1, List.foldl_append]
  simp only [List.foldl_cons, List.foldl_nil, accumulateStep, GoMap.set, if_true,
    Option.getD_some, foldl_accumulateStep_total, List.map_append, List.sum_append,
    List.map_cons, List.map_nil, List.sum_cons, List.sum_nil]
  ring

theorem foldl_accumulateStep_rangeSum (slice : Int → Int) (lo hi : Int) :
    ((loopRange lo hi).foldl (accumulateStep slice) (0, GoMap.empty)).1 =
      rangeSum lo hi slice := by
  rw [foldl_accumulateStep_total]
  simp [rangeSum]

theorem rangeSum_comm (a b c d : Int) (f : Int → Int → Int) :
    rangeSum a b (fun x => rangeSum c d (fun y => f x y)) =
      rangeSum c d (fun y => rangeSum a b (fun x => f x y)) :=
  rangeSum_swap _ _ f

theorem rangeSum_congr (a b : Int) (f g : Int → Int) (h : ∀ x, f x = g x) :
    rangeSum a b f = rangeSum a b g := by
  have : f = g := funext h
  rw [this]

theorem accumulate_total (histo : GoMap) (index : Int → Int → Int → Int)
    (lo hi jlo jhi klo khi : Int) :
    (accumulate histo index lo hi jlo jhi klo khi).1 =
      rangeSum lo hi (fun i => rangeSum jlo jhi (fun j =>
        rangeSum klo khi (fun k => histo.get (index i j k)))) := by
  rw [accumulate_eq, foldl_accumulateStep_rangeSum]

theorem accumulate_get (histo : GoMap) (index : Int → Int → Int → Int)
    (lo hi jlo jhi klo khi i : Int) (h1 : lo ≤ i) (h2 : i ≤ hi) :
    (accumulate histo index lo hi jlo jhi klo khi).2.get i =
      rangeSum lo i (fun i => rangeSum jlo jhi (fun j =>
        rangeSum klo khi (fun k => histo.get (index i j k)))) := by
  rw [accumulate_eq, foldl_accumulateStep_get _ lo hi i h1 h2]

theorem count_restrict_r (v : vbox) (i : Int) :
    (v.restrict "r" i).count =
      rangeSum v.r1 i (fun x => rangeSum v.g1 v.g2 (fun j =>
        rangeSum v.b1 v.b2 (fun k => v.histo.get (getColorIndex x j k)))) := by
  rw [count_eq_rangeSum]
  simp [vbox.restrict]

theorem count_restrict_g (v : vbox) (i : Int) :
    (v.restrict "g" i).count =
      rangeSum v.g1 i (fun x => rangeSum v.r1 v.r2 (fun j =>
        rangeSum v.b1 v.b2 (fun k => v.histo.get (getColorIndex j x k)))) := by
  rw [count_eq_rangeSum]
  have hs : ¬ ("g" : String) = "r" := by decide
  simp only [vbox.restrict, hs, if_false, if_true]
  exact rangeSum_comm _ _ _ _ _

theorem count_restrict_b (v : vbox) (i : Int) :
    (v.restrict "b" i).count =
      rangeSum v.b1 i (fun x => rangeSum v.r1 v.r2 (fun j =>
        rangeSum v.g1 v.g2 (fun k => v.histo.get (getColorIndex j k x)))) := by
  rw [count_eq_rangeSum]
  have hs : ¬ ("b" : String) = "r" := by decide
  have hs2 : ¬ ("b" : String) = "g" := by decide
  simp only [vbox.restrict, hs, hs2, if_false]
  rw [rangeSum_comm v.b1 i v.r1 v.r2]
  apply rangeSum_congr
  intro j
  exact rangeSum_comm _ _ _ _ _

theorem restrict_self (v : vbox) :
    v.restrict "r" v.r2 = v ∧ v.restrict "g" v.g2 = v ∧ v.restrict "b" v.b2 = v := by
  have hs : ¬ ("g" : String) = "r" := by decide
  have hs1 : ¬ ("b" : String) = "r" := by decide
  have hs2 : ¬ ("b" : String) = "g" := by decide
  simp [vbox.restrict, hs, hs1, hs2]

/-- C19: for a box with `r1 <= r2`, `g1 <= g2`, `b1 <= b2` and population at least 2,
whichever dimension `medianCutApply` chooses, with bounds `[dim1, dim2]`, the entry
`partialsum[i]` for `i` in `[dim1, dim2]` is the population of the box restricted to
`[dim1, i]` in that dimension, and `total = partialsum[dim2] = v.count()`. -/
theorem medianCutApply_partialsum (v : vbox)
    (hinv : v.r1 ≤ v.r2 ∧ v.g1 ≤ v.g2 ∧ v.b1 ≤ v.b2) (hcount : 2 ≤ v.count) :
    ∃ l : CutLocals, (medianCutRun v).2 = some l ∧
      ((l.cutColor = "r" ∧ l.dim1 = v.r1 ∧ l.dim2 = v.r2) ∨
        (l.cutColor = "g" ∧ l.dim1 = v.g1 ∧ l.dim2 = v.g2) ∨
        (l.cutColor = "b" ∧ l.dim1 = v.b1 ∧ l.dim2 = v.b2)) ∧
      (∀ i : Int, l.dim1 ≤ i → i ≤ l.dim2 →
        l.partialsum.get i = (v.restrict l.cutColor i).count) ∧
      l.total = l.partialsum.get l.dim2 ∧
      l.total = v.count := by
  refine ⟨_, by rw [medianCutRun_of_ge v hcount], ?_⟩
  have hs : ¬ ("g" : String) = "r" := by decide
  have hs1 : ¬ ("b" : String) = "r" := by decide
  have hs2 : ¬ ("b" : String) = "g" := by decide
  obtain ⟨e1, e2, e3⟩ := restrict_self v
  generalize max [v.r2 - v.r1 + 1, v.g2 - v.g1 + 1, v.b2 - v.b1 + 1] = m
  simp only [cutLocals]
  by_cases hr : m = v.r2 - v.r1 + 1
  · rw [if_pos hr]
    simp only [if_true]
    refine ⟨Or.inl ⟨trivial, trivial, trivial⟩, ?_, ?_, ?_⟩
    · intro i h1 h2
      rw [accumulate_get _ _ _ _ _ _ _ _ i h1 h2, count_restrict_r]
    · rw [accumulate_get _ _ _ _ _ _ _ _ v.r2 hinv.1 (le_refl _), accumulate_total]
    · rw [accumulate_total, ← count_restrict_r, e1]
  · rw [if_neg hr]
    by_cases hg : m = v.g2 - v.g1 + 1
    · rw [if_pos hg]
      simp only [hs, if_false, if_true]
      refine ⟨Or.inr (Or.inl ⟨trivial, trivial, trivial⟩), ?_, ?_, ?_⟩
      · intro i h1 h2
        rw [accumulate_get _ _ _ _ _ _ _ _ i h1 h2, count_restrict_g]
      · rw [accumulate_get _ _ _ _ _ _ _ _ v.g2 hinv.2.1 (le_refl _), accumulate_total]
      · rw [accumulate_total, ← count_restrict_g, e2]
    · rw [if_neg hg]
      simp only [hs1, hs2, if_false, if_true]
      refine ⟨Or.inr (Or.inr ⟨trivial, trivial, trivial⟩), ?_, ?_, ?_⟩
      · intro i h1 h2
        rw [accumulate_get _ _ _ _ _ _ _ _ i h1 h2, count_restrict_b]
      · rw [accumulate_get _ _ _ _ _ _ _ _ v.b2 hinv.2.2 (le_refl _), accumulate_total]
      · rw [accumulate_total, ← count_restrict_b, e3]

theorem medianCutApply_partialsum_witness :
    ∃ l : CutLocals, (medianCutRun seedThree).2 = some l ∧
      ((l.cutColor = "r" ∧ l.dim1 = seedThree.r1 ∧ l.dim2 = seedThree.r2) ∨
        (l.cutColor = "g" ∧ l.dim1 = seedThree.g1 ∧ l.dim2 = seedThree.g2) ∨
        (l.cutColor = "b" ∧ l.dim1 = seedThree.b1 ∧ l.dim2 = seedThree.b2)) ∧
      (∀ i : Int, l.dim1 ≤ i → i ≤ l.dim2 →
        l.partialsum.get i = (seedThree.restrict l.cutColor i).count) ∧
      l.total = l.partialsum.get l.dim2 ∧
      l.total = seedThree.count :=
  medianCutApply_partialsum seedThree (by decide) (by decide)

/-! ## `float32` rounding -/

theorem roundHalfEven_intCast (z : Int) : roundHalfEven (z : ℚ) = z := by
  simp [roundHalfEven]

theorem abs_roundHalfEven_sub_le (x : ℚ) : |(roundHalfEven x : ℚ) - x| ≤ 1 / 2 := by
  have h1 := Int.floor_le x
  have h2 := Int.lt_floor_add_one x
  unfold roundHalfEven
  rw [abs_le]
  split_ifs with ha hb hc
  · constructor <;> linarith
  · push_cast; constructor <;> linarith
  · constructor <;> linarith
  · push_cast; constructor <;> linarith

theorem roundHalfEven_eq_of_abs_lt (x : ℚ) (z : Int) (h : |x - z| < 1 / 2) :
    roundHalfEven x = z := by
  rw [abs_lt] at h
  by_cases hz : (z : ℚ) ≤ x
  · have hf : ⌊x⌋ = z := by
      rw [Int.floor_eq_iff]; constructor <;> linarith [h.1, h.2]
    unfold roundHalfEven
    rw [hf, if_pos (by linarith [h.2])]
  · have hf : ⌊x⌋ = z - 1 := by
      rw [Int.floor_eq_iff]; push_cast; constructor <;> linarith [h.1, h.2]
    unfold roundHalfEven
    rw [hf]
    push_cast
    rw [if_neg (by linarith [h.1]), if_pos (by linarith [h.1])]
    ring

theorem log_eq_of_bounds (x : ℚ) (e : Int) (h1 : (2 : ℚ) ^ e ≤ x) (h2 : x < 2 ^ (e + 1)) :
    Int.log 2 x = e := by
  have hx : 0 < x := lt_of_lt_of_le (by positivity) h1
  have a : e ≤ Int.log 2 x := (Int.zpow_le_iff_le_log (by norm_num) hx).mp (by exact_mod_cast h1)
  have b : Int.log 2 x < e + 1 := (Int.lt_zpow_iff_log_lt (by norm_num) hx).mp (by exact_mod_cast h2)
  omega

theorem f32round_of_bounds (x : ℚ) (e z : Int) (h1 : (2 : ℚ) ^ e ≤ |x|)
    (h2 : |x| < 2 ^ (e + 1)) (hz : |x / 2 ^ (e - 23) - z| < 1 / 2) :
    f32round x = (z : ℚ) * 2 ^ (e - 23) := by
  have hx : x ≠ 0 := by
    intro h
    rw [h, abs_zero] at h1
    have : (0 : ℚ) < 2 ^ e := by positivity
    linarith
  unfold f32round
  rw [if_neg hx, log_eq_of_bounds |x| e h1 h2, roundHalfEven_eq_of_abs_lt _ z hz]

theorem f32round_exact (m k : Int) (hm : |m| < 2 ^ 24) :
    f32round ((m : ℚ) * 2 ^ k) = (m : ℚ) * 2 ^ k := by
  by_cases h0 : m = 0
  · subst h0; simp [f32round]
  have hpos : (0 : ℚ) < |(m : ℚ) * 2 ^ k| := by
    apply abs_pos.mpr
    have : (0 : ℚ) < 2 ^ k := by positivity
    have : (m : ℚ) ≠ 0 := by exact_mod_cast h0
    positivity
  have hx : (m : ℚ) * 2 ^ k ≠ 0 := abs_pos.mp hpos
  have hlog := Int.zpow_log_le_self (b := 2) (by norm_num) hpos
  have habs : |(m : ℚ) * 2 ^ k| = (|m| : Int) * 2 ^ k := by
    rw [abs_mul, abs_of_pos (by positivity : (0 : ℚ) < 2 ^ k)]
    push_cast
    rfl
  have hlt : |(m : ℚ) * 2 ^ k| < 2 ^ (24 + k) := by
    rw [habs, zpow_add₀ (by norm_num : (2 : ℚ) ≠ 0)]
    apply mul_lt_mul_of_pos_right _ (by positivity)
    exact_mod_cast hm
  have he : Int.log 2 |(m : ℚ) * 2 ^ k| < 24 + k := by
    have h3 : ((2 : ℕ) : ℚ) ^ Int.log 2 |(m : ℚ) * 2 ^ k| < 2 ^ (24 + k) :=
      lt_of_le_of_lt hlog hlt
    have h4 : (2 : ℚ) ^ Int.log 2 |(m : ℚ) * 2 ^ k| < 2 ^ (24 + k) := by exact_mod_cast h3
    exact (zpow_lt_zpow_iff_right₀ (by norm_num : (1 : ℚ) < 2)).mp h4
  unfold f32round
  rw [if_neg hx]
  set e := Int.log 2 |(m : ℚ) * 2 ^ k| with he_def
  obtain ⟨d, hd⟩ : ∃ d : ℕ, k = (e - 23) + d := ⟨(k - (e - 23)).toNat, by omega⟩
  have hdiv : (m : ℚ) * 2 ^ k / 2 ^ (e - 23) = ((m * 2 ^ d : Int) : ℚ) := by
    rw [hd, zpow_add₀ (by norm_num : (2 : ℚ) ≠ 0), zpow_natCast]
    push_cast
    field_simp
    ring
  rw [hdiv, roundHalfEven_intCast]
  rw [hd, zpow_add₀ (by norm_num : (2 : ℚ) ≠ 0), zpow_natCast]
  push_cast
  ring

theorem f32round_intCast (n : Int) (hn : |n| < 2 ^ 24) : f32round (n : ℚ) = n := by
  have := f32round_exact n 0 hn
  simpa using this

theorem abs_f32round_sub_le (x : ℚ) (e : Int) (hx : x ≠ 0) (h2 : |x| < 2 ^ (e + 1)) :
    |f32round x - x| ≤ 2 ^ (e - 24) := by
  have hpos : (0 : ℚ) < |x| := abs_pos.mpr hx
  have hlog : Int.log 2 |x| < e + 1 :=
    (Int.lt_zpow_iff_log_lt (by norm_num) hpos).mp (by exact_mod_cast h2)
  unfold f32round
  rw [if_neg hx]
  set u : ℚ := 2 ^ (Int.log 2 |x| - 23) with hu
  have hupos : 0 < u := by positivity
  have hr := abs_roundHalfEven_sub_le (x / u)
  have e1 : (roundHalfEven (x / u) : ℚ) * u - x = ((roundHalfEven (x / u) : ℚ) - x / u) * u := by
    field_simp
  rw [e1, abs_mul, abs_of_pos hupos]
  have hule : u ≤ 2 ^ (e - 23) := by
    rw [hu]
    exact zpow_le_zpow_right₀ (by norm_num) (by omega)
  have e2 : (2 : ℚ) ^ (e - 24) = 1 / 2 * 2 ^ (e - 23) := by
    rw [show e - 24 = (e - 23) + (-1) by ring, zpow_add₀ (by norm_num : (2 : ℚ) ≠ 0)]
    norm_num
    ring
  rw [e2]
  exact mul_le_mul hr hule (le_of_lt hupos) (by norm_num)

theorem f32toInt_f32div (S N : Int) (hN : 0 < N) (hN2 : N < 131072) (hS0 : 0 ≤ S)
    (hS : S < 256 * N) : f32toInt (f32div (S : ℚ) (N : ℚ)) = S / N := by
  have hNq : (0 : ℚ) < (N : ℚ) := by exact_mod_cast hN
  have hdm := Int.emod_add_ediv S N
  have hr0 := Int.emod_nonneg S (by omega : N ≠ 0)
  have hr1 := Int.emod_lt_of_pos S hN
  have hf0 : 0 ≤ S / N := Int.ediv_nonneg hS0 (le_of_lt hN)
  have hf1 : S / N < 256 := Int.ediv_lt_of_lt_mul hN hS
  have hq : (S : ℚ) / N = (S / N : Int) + ((S % N : Int) : ℚ) / N := by
    field_simp
    have : (S : ℚ) = ((S % N + N * (S / N) : Int) : ℚ) := by rw [hdm]
    rw [this]; push_cast; ring
  unfold f32div
  by_cases hrem : S % N = 0
  · rw [hq, hrem]
    simp only [Int.cast_zero, zero_div, add_zero]
    rw [f32round_intCast _ (by rw [abs_of_nonneg hf0]; omega)]
    unfold f32toInt
    rw [if_pos (by exact_mod_cast hf0), Int.floor_intCast]
  · have hrem1 : 1 ≤ S % N := by omega
    have hrq1 : (1 : ℚ) / 131072 ≤ ((S % N : Int) : ℚ) / N := by
      rw [div_le_div_iff₀ (by norm_num) hNq]
      have h1 : (1 : ℚ) ≤ ((S % N : Int) : ℚ) := by exact_mod_cast hrem1
      have h2 : (N : ℚ) ≤ 131072 := by exact_mod_cast (le_of_lt hN2)
      nlinarith
    have hrq2 : ((S % N : Int) : ℚ) / N < 1 - 1 / 131072 := by
      rw [div_lt_iff₀ hNq]
      have h1 : ((S % N : Int) : ℚ) ≤ (N : ℚ) - 1 := by
        have : S % N ≤ N - 1 := by omega
        exact_mod_cast this
      have h2 : (N : ℚ) < 131072 := by exact_mod_cast hN2
      nlinarith
    have hfq0 : (0 : ℚ) ≤ ((S / N : Int) : ℚ) := by exact_mod_cast hf0
    have hfq1 : ((S / N : Int) : ℚ) ≤ 255 := by
      have : S / N ≤ 255 := by omega
      exact_mod_cast this
    have hqpos : (0 : ℚ) < (S : ℚ) / N := by rw [hq]; linarith
    have hqlt : |(S : ℚ) / N| < 2 ^ ((7 : Int) + 1) := by
      rw [abs_of_pos hqpos, hq]
      norm_num
      linarith
    have herr := abs_f32round_sub_le ((S : ℚ) / N) 7 (ne_of_gt hqpos) hqlt
    have h17 : (2 : ℚ) ^ ((7 : Int) - 24) = 1 / 131072 := by norm_num
    rw [h17, abs_le] at herr
    have hlo : ((S / N : Int) : ℚ) ≤ f32round ((S : ℚ) / N) := by
      have := herr.1
      rw [hq] at this ⊢
      linarith
    have hhi : f32round ((S : ℚ) / N) < ((S / N : Int) : ℚ) + 1 := by
      have := herr.2
      rw [hq] at this ⊢
      linarith
    unfold f32toInt
    rw [if_pos (le_trans hfq0 hlo), Int.floor_eq_iff]
    exact ⟨hlo, hhi⟩

/-! ## The loops of `avg` and `count` over the cells -/

theorem foldl_flatMap_eq {α β σ : Type} (l : List α) (g : α → List β) (f : σ → β → σ) :
    ∀ s : σ, (l.flatMap g).foldl f s = l.foldl (fun s a => (g a).foldl f s) s := by
  induction l with
  | nil => intro s; rfl
  | cons a l ih =>
    intro s
    rw [List.flatMap_cons, List.foldl_append, ih]
    rfl

theorem foldl_cells {σ : Type} (v : vbox) (f : σ → Int → Int → Int → σ) (s : σ) :
    (loopRange v.r1 v.r2).foldl (fun s i =>
      (loopRange v.g1 v.g2).foldl (fun s j =>
        (loopRange v.b1 v.b2).foldl (fun s k => f s i j k) s) s) s =
      v.cells.foldl (fun s c => f s c.1 c.2.1 c.2.2) s := by
  unfold vbox.cells
  rw [foldl_flatMap_eq]
  congr 1
  funext s i
  rw [foldl_flatMap_eq]
  congr 1
  funext s j
  rw [List.foldl_map]

theorem mem_cells (v : vbox) (c : Int × Int × Int) :
    c ∈ v.cells ↔ (v.r1 ≤ c.1 ∧ c.1 ≤ v.r2) ∧ (v.g1 ≤ c.2.1 ∧ c.2.1 ≤ v.g2) ∧
      (v.b1 ≤ c.2.2 ∧ c.2.2 ≤ v.b2) := by
  obtain ⟨i, j, k⟩ := c
  simp only [vbox.cells, List.mem_flatMap, List.mem_map, mem_loopRange, Prod.mk.injEq]
  constructor
  · rintro ⟨i', hi, j', hj, k', hk, rfl, rfl, rfl⟩
    exact ⟨hi, hj, hk⟩
  · rintro ⟨hi, hj, hk⟩
    exact ⟨i, hi, j, hj, k, hk, rfl, rfl, rfl⟩

theorem foldl_add_eq_sum_cells {α : Type} (l : List α) (f : α → Int) :
    ∀ a : Int, l.foldl (fun acc x => acc + f x) a = a + (l.map f).sum := by
  induction l with
  | nil => intro a; simp
  | cons x l ih => intro a; simp only [List.foldl_cons, List.map_cons, List.sum_cons, ih]; ring

theorem count_eq_cells_sum (v : vbox) : v.count = (v.cells.map v.cellCount).sum := by
  unfold vbox.count
  rw [foldl_cells v (fun npix i j k => npix + v.histo.get (getColorIndex i j k)) 0]
  have := foldl_add_eq_sum_cells v.cells v.cellCount 0
  simp only [vbox.cellCount, zero_add] at this ⊢
  exact this

theorem avgLoop_eq_cells (v : vbox) (mult : ℚ) :
    avgLoop v mult =
      v.cells.foldl (fun s c => avgBody v.histo mult s c.1 c.2.1 c.2.2)
        { ntot := 0, r_sum := 0, g_sum := 0, b_sum := 0 } := by
  unfold avgLoop
  exact foldl_cells v (fun s i j k => avgBody v.histo mult s i j k) _

/-! ## Exact accumulation in `avg` -/

theorem f32round_eq (y : ℚ) (m k : Int) (hy : y = (m : ℚ) * 2 ^ k) (hm0 : 0 ≤ m)
    (hm : m < 2 ^ 24) : f32round y = y := by
  rw [hy]
  exact f32round_exact m k (by rw [abs_of_nonneg hm0]; exact hm)

theorem f32_mult : f32ofInt (shl 1 (8 - sigbits)) = 8 := by
  have h : shl 1 (8 - sigbits) = 8 := by decide
  rw [h]
  unfold f32ofInt
  rw [f32round_eq _ 8 0 (by norm_num) (by norm_num) (by norm_num)]
  norm_num

theorem channel_exact (h x a : Int) (hh : 0 ≤ h) (hx0 : 0 ≤ x) (hx : x ≤ 31) (ha : 0 ≤ a)
    (hb : a + 63 * h < 2 ^ 24) :
    f32add ((4 * a : Int) : ℚ)
        (f32mul (f32mul (f32ofInt h) (f32add (f32ofInt x) (1 / 2))) 8) =
      ((4 * (a + (2 * x + 1) * h) : Int) : ℚ) := by
  have hp0 : 0 ≤ (2 * x + 1) * h := by positivity
  have hp1 : (2 * x + 1) * h ≤ 63 * h := by nlinarith
  unfold f32ofInt f32add f32mul
  rw [f32round_eq (h : ℚ) h 0 (by simp) hh (by omega)]
  rw [f32round_eq (x : ℚ) x 0 (by simp) hx0 (by omega)]
  rw [f32round_eq ((x : ℚ) + 1 / 2) (2 * x + 1) (-1) (by push_cast; rw [zpow_neg_one]; ring)
    (by omega) (by omega)]
  rw [f32round_eq ((h : ℚ) * ((x : ℚ) + 1 / 2)) ((2 * x + 1) * h) (-1)
    (by push_cast; rw [zpow_neg_one]; ring) hp0 (by omega)]
  rw [f32round_eq ((h : ℚ) * ((x : ℚ) + 1 / 2) * 8) ((2 * x + 1) * h) 2
    (by push_cast; norm_num; ring) hp0 (by omega)]
  rw [f32round_eq _ (a + (2 * x + 1) * h) 2 (by push_cast; norm_num; ring)
    (by omega) (by omega)]
  push_cast
  ring

theorem avgBody_exact (histo : GoMap) (n a b c i j k : Int)
    (hh : 0 ≤ histo.get (getColorIndex i j k))
    (hi : 0 ≤ i ∧ i ≤ 31) (hj : 0 ≤ j ∧ j ≤ 31) (hk : 0 ≤ k ∧ k ≤ 31)
    (hn : 0 ≤ n) (ha : 0 ≤ a ∧ a ≤ 63 * n) (hb : 0 ≤ b ∧ b ≤ 63 * n)
    (hc : 0 ≤ c ∧ c ≤ 63 * n)
    (hbound : 63 * (n + histo.get (getColorIndex i j k)) < 2 ^ 24) :
    avgBody histo 8
        { ntot := ((n : Int) : ℚ), r_sum := ((4 * a : Int) : ℚ),
          g_sum := ((4 * b : Int) : ℚ), b_sum := ((4 * c : Int) : ℚ) } i j k =
      { ntot := ((n + histo.get (getColorIndex i j k) : Int) : ℚ),
        r_sum := ((4 * (a + (2 * i + 1) * histo.get (getColorIndex i j k)) : Int) : ℚ),
        g_sum := ((4 * (b + (2 * j + 1) * histo.get (getColorIndex i j k)) : Int) : ℚ),
        b_sum := ((4 * (c + (2 * k + 1) * histo.get (getColorIndex i j k)) : Int) : ℚ) } := by
  unfold avgBody
  simp only
  rw [channel_exact _ i a hh hi.1 hi.2 ha.1 (by omega),
    channel_exact _ j b hh hj.1 hj.2 hb.1 (by omega),
    channel_exact _ k c hh hk.1 hk.2 hc.1 (by omega)]
  congr 1
  unfold f32add f32ofInt
  rw [f32round_eq ((histo.get (getColorIndex i j k) : Int) : ℚ) _ 0 (by simp) hh (by omega)]
  rw [f32round_eq _ (n + histo.get (getColorIndex i j k)) 0 (by push_cast; simp)
    (by omega) (by omega)]
  push_cast
  ring

theorem sum_map_nonneg {α : Type} (l : List α) (f : α → Int) (h : ∀ x ∈ l, 0 ≤ f x) :
    0 ≤ (l.map f).sum := by
  apply List.sum_nonneg
  intro y hy
  obtain ⟨x, hx, rfl⟩ := List.mem_map.mp hy
  exact h x hx

theorem foldl_avgBody_exact (histo : GoMap) (L : List (Int × Int × Int)) :
    ∀ n a b c : Int,
      (∀ cell ∈ L, (0 ≤ cell.1 ∧ cell.1 ≤ 31) ∧ (0 ≤ cell.2.1 ∧ cell.2.1 ≤ 31) ∧
        (0 ≤ cell.2.2 ∧ cell.2.2 ≤ 31) ∧
        0 ≤ histo.get (getColorIndex cell.1 cell.2.1 cell.2.2)) →
      0 ≤ n → (0 ≤ a ∧ a ≤ 63 * n) → (0 ≤ b ∧ b ≤ 63 * n) → (0 ≤ c ∧ c ≤ 63 * n) →
      63 * (n + (L.map (fun cell =>
        histo.get (getColorIndex cell.1 cell.2.1 cell.2.2))).sum) < 2 ^ 24 →
      L.foldl (fun s cell => avgBody histo 8 s cell.1 cell.2.1 cell.2.2)
          { ntot := ((n : Int) : ℚ), r_sum := ((4 * a : Int) : ℚ),
            g_sum := ((4 * b : Int) : ℚ), b_sum := ((4 * c : Int) : ℚ) } =
        { ntot := ((n + (L.map (fun cell =>
            histo.get (getColorIndex cell.1 cell.2.1 cell.2.2))).sum : Int) : ℚ),
          r_sum := ((4 * (a + (L.map (fun cell => (2 * cell.1 + 1) *
            histo.get (getColorIndex cell.1 cell.2.1 cell.2.2))).sum) : Int) : ℚ),
          g_sum := ((4 * (b + (L.map (fun cell => (2 * cell.2.1 + 1) *
            histo.get (getColorIndex cell.1 cell.2.1 cell.2.2))).sum) : Int) : ℚ),
          b_sum := ((4 * (c + (L.map (fun cell => (2 * cell.2.2 + 1) *
            histo.get (getColorIndex cell.1 cell.2.1 cell.2.2))).sum) : Int) : ℚ) } := by
  induction L with
  | nil => intro n a b c _ _ _ _ _ _; simp
  | cons cell L ih =>
    intro n a b c hL hn ha hb hc hbound
    have hcell := hL cell (List.mem_cons_self _ _)
    have hrest : ∀ x ∈ L, (0 ≤ x.1 ∧ x.1 ≤ 31) ∧ (0 ≤ x.2.1 ∧ x.2.1 ≤ 31) ∧
        (0 ≤ x.2.2 ∧ x.2.2 ≤ 31) ∧ 0 ≤ histo.get (getColorIndex x.1 x.2.1 x.2.2) :=
      fun x hx => hL x (List.mem_cons_of_mem _ hx)
    have hsum : 0 ≤ (L.map (fun cell =>
        histo.get (getColorIndex cell.1 cell.2.1 cell.2.2))).sum :=
      sum_map_nonneg L _ (fun x hx => (hrest x hx).2.2.2)
    simp only [List.map_cons, List.sum_cons] at hbound
    have hw := hcell.2.2.2
    have hr1 : (2 * cell.1 + 1) * histo.get (getColorIndex cell.1 cell.2.1 cell.2.2) ≤
        63 * histo.get (getColorIndex cell.1 cell.2.1 cell.2.2) := by nlinarith [hcell.1.2]
    have hr0 : 0 ≤ (2 * cell.1 + 1) *
        histo.get (getColorIndex cell.1 cell.2.1 cell.2.2) := by
      have := hcell.1.1; positivity
    have hg1 : (2 * cell.2.1 + 1) * histo.get (getColorIndex cell.1 cell.2.1 cell.2.2) ≤
        63 * histo.get (getColorIndex cell.1 cell.2.1 cell.2.2) := by nlinarith [hcell.2.1.2]
    have hg0 : 0 ≤ (2 * cell.2.1 + 1) *
        histo.get (getColorIndex cell.1 cell.2.1 cell.2.2) := by
      have := hcell.2.1.1; positivity
    have hb1 : (2 * cell.2.2 + 1) * histo.get (getColorIndex cell.1 cell.2.1 cell.2.2) ≤
        63 * histo.get (getColorIndex cell.1 cell.2.1 cell.2.2) := by nlinarith [hcell.2.2.1.2]
    have hb0 : 0 ≤ (2 * cell.2.2 + 1) *
        histo.get (getColorIndex cell.1 cell.2.1 cell.2.2) := by
      have := hcell.2.2.1.1; positivity
    rw [List.foldl_cons, avgBody_exact histo n a b c cell.1 cell.2.1 cell.2.2 hw hcell.1
      hcell.2.1 hcell.2.2.1 hn ha hb hc (by omega)]
    rw [ih _ _ _ _ hrest (by omega) ⟨by omega, by omega⟩ ⟨by omega, by omega⟩
      ⟨by omega, by omega⟩ (by omega)]
    simp only [List.map_cons, List.sum_cons]
    congr 1 <;> (congr 1; ring)

theorem cells_bounds (v : vbox) (hr : 0 ≤ v.r1 ∧ v.r2 ≤ 31) (hg : 0 ≤ v.g1 ∧ v.g2 ≤ 31)
    (hb : 0 ≤ v.b1 ∧ v.b2 ≤ 31) (c : Int × Int × Int) (hc : c ∈ v.cells) :
    (0 ≤ c.1 ∧ c.1 ≤ 31) ∧ (0 ≤ c.2.1 ∧ c.2.1 ≤ 31) ∧ (0 ≤ c.2.2 ∧ c.2.2 ≤ 31) := by
  have := (mem_cells v c).mp hc
  omega

theorem avgLoop_exact (v : vbox) (hr : 0 ≤ v.r1 ∧ v.r2 ≤ 31) (hg : 0 ≤ v.g1 ∧ v.g2 ≤ 31)
    (hb : 0 ≤ v.b1 ∧ v.b2 ≤ 31) (hnn : ∀ idx : Int, 0 ≤ v.histo.get idx)
    (hsmall : 63 * v.count < 2 ^ 24) :
    avgLoop v 8 =
      { ntot := (v.count : ℚ),
        r_sum := ((4 * v.moment (fun c => c.1) : Int) : ℚ),
        g_sum := ((4 * v.moment (fun c => c.2.1) : Int) : ℚ),
        b_sum := ((4 * v.moment (fun c => c.2.2) : Int) : ℚ) } := by
  rw [avgLoop_eq_cells]
  have h := foldl_avgBody_exact v.histo v.cells 0 0 0 0
    (fun c hc => by
      obtain ⟨h1, h2, h3⟩ := cells_bounds v hr hg hb c hc
      exact ⟨h1, h2, h3, hnn _⟩)
    (le_refl 0) ⟨le_refl 0, by norm_num⟩ ⟨le_refl 0, by norm_num⟩ ⟨le_refl 0, by norm_num⟩
    (by
      have := count_eq_cells_sum v
      rw [zero_add]
      change 63 * (List.map v.cellCount v.cells).sum < 2 ^ 24
      rw [← this]
      exact hsmall)
  simp only [mul_zero, Int.cast_zero, zero_add] at h
  rw [h, count_eq_cells_sum]
  rfl

theorem moment_bounds (v : vbox) (coord : Int × Int × Int → Int)
    (hc : ∀ c ∈ v.cells, 0 ≤ coord c ∧ coord c ≤ 31)
    (hnn : ∀ idx : Int, 0 ≤ v.histo.get idx) :
    v.count ≤ v.moment coord ∧ v.moment coord ≤ 63 * v.count := by
  rw [count_eq_cells_sum]
  unfold vbox.moment
  constructor
  · apply List.sum_le_sum
    intro c hcm
    have h0 : 0 ≤ v.cellCount c := hnn _
    have := hc c hcm
    nlinarith
  · rw [← List.sum_map_mul_left]
    apply List.sum_le_sum
    intro c hcm
    have h0 : 0 ≤ v.cellCount c := hnn _
    have := hc c hcm
    nlinarith

theorem sum_map_intCast {α : Type} (l : List α) (f : α → Int) :
    (l.map (fun c => ((f c : Int) : ℚ))).sum = (((l.map f).sum : Int) : ℚ) := by
  induction l with
  | nil => simp
  | cons x l ih => simp only [List.map_cons, List.sum_cons, ih]; push_cast; ring

theorem weighted_sum_eq {α : Type} (l : List α) (w coord : α → Int) :
    (l.map (fun c => ((w c : Int) : ℚ) * (((coord c : Int) : ℚ) + 1 / 2) * 8)).sum =
      ((4 * (l.map (fun c => (2 * coord c + 1) * w c)).sum : Int) : ℚ) := by
  induction l with
  | nil => simp
  | cons x l ih => simp only [List.map_cons, List.sum_cons, ih]; push_cast; ring

theorem centroid_eq (v : vbox) (coord : Int × Int × Int → Int) :
    v.centroid coord = ((4 * v.moment coord : Int) : ℚ) / (v.count : ℚ) := by
  unfold vbox.centroid vbox.moment
  rw [count_eq_cells_sum, ← sum_map_intCast v.cells v.cellCount, weighted_sum_eq]

theorem floor_centroid (v : vbox) (coord : Int × Int × Int → Int) (hpos : 0 < v.count) :
    ⌊v.centroid coord⌋ = (4 * v.moment coord) / v.count := by
  rw [centroid_eq]
  have hN : v.count = ((v.count.toNat : ℕ) : Int) := by omega
  rw [hN]
  exact Rat.floor_intCast_div_natCast _ _

/-! ## The average colour -/

theorem twoCellBox_histo_nonneg : ∀ idx : Int, 0 ≤ twoCellBox.histo.get idx := by
  intro idx
  simp only [twoCellBox, GoMap.get, GoMap.set, GoMap.empty]
  split_ifs <;> simp

/-- C14, as stated, fails: for the box of the two cells `(16, 0, 0)` and `(17, 0, 0)` with
114689 and 16384 pixels, the exact red centroid is `133 - 1/131073`, whose truncation is
`132`, while `avg` returns `133` for red: the `float32` quotient rounds to `133`. -/
theorem avg_twoCellBox_counterexample :
    ((0 ≤ twoCellBox.r1 ∧ twoCellBox.r1 ≤ twoCellBox.r2 ∧ twoCellBox.r2 ≤ 31) ∧
      (0 ≤ twoCellBox.g1 ∧ twoCellBox.g1 ≤ twoCellBox.g2 ∧ twoCellBox.g2 ≤ 31) ∧
      (0 ≤ twoCellBox.b1 ∧ twoCellBox.b1 ≤ twoCellBox.b2 ∧ twoCellBox.b2 ≤ 31)) ∧
    (∀ idx : Int, 0 ≤ twoCellBox.histo.get idx) ∧
    twoCellBox.count = 131073 ∧
    twoCellBox.centroid (fun c => c.1) = 133 - 1 / 131073 ∧
    ⌊twoCellBox.centroid (fun c => c.1)⌋ = 132 ∧
    twoCellBox.avg = (133, 4, 4) := by
  have hcount : twoCellBox.count = 131073 := by decide
  have hmr : twoCellBox.moment (fun c => c.1) = 4358177 := by decide
  have hmg : twoCellBox.moment (fun c => c.2.1) = 131073 := by decide
  have hmb : twoCellBox.moment (fun c => c.2.2) = 131073 := by decide
  have hcen : twoCellBox.centroid (fun c => c.1) = 133 - 1 / 131073 := by
    rw [centroid_eq, hmr, hcount]; norm_num
  refine ⟨by decide, twoCellBox_histo_nonneg, hcount, hcen, ?_, ?_⟩
  · rw [floor_centroid _ _ (by rw [hcount]; decide), hmr, hcount]
    decide
  · have hloop := avgLoop_exact twoCellBox (by decide) (by decide) (by decide)
      twoCellBox_histo_nonneg (by rw [hcount]; decide)
    rw [hmr, hmg, hmb, hcount] at hloop
    have hred : f32round ((17432708 : ℚ) / 131073) = 133 := by
      rw [f32round_of_bounds _ 7 8716288 (by rw [abs_of_pos (by norm_num)]; norm_num)
        (by rw [abs_of_pos (by norm_num)]; norm_num)
        (by rw [abs_lt]; constructor <;> norm_num)]
      norm_num
    have hR : f32div (((4 * 4358177 : Int) : ℚ)) (((131073 : Int) : ℚ)) = 133 := by
      unfold f32div
      have e : (((4 * 4358177 : Int) : ℚ)) / (((131073 : Int) : ℚ)) =
          (17432708 : ℚ) / 131073 := by norm_num
      rw [e, hred]
    have hG : f32div (((4 * 131073 : Int) : ℚ)) (((131073 : Int) : ℚ)) = 4 := by
      unfold f32div
      have e : (((4 * 131073 : Int) : ℚ)) / (((131073 : Int) : ℚ)) = ((4 : Int) : ℚ) := by
        norm_num
      rw [e, f32round_intCast 4 (by decide)]
      norm_num
    have h133 : f32toInt (133 : ℚ) = 133 := by
      unfold f32toInt
      rw [if_pos (by norm_num)]
      exact Int.floor_intCast (133 : Int)
    have h4 : f32toInt (4 : ℚ) = 4 := by
      unfold f32toInt
      rw [if_pos (by norm_num)]
      exact Int.floor_intCast (4 : Int)
    unfold vbox.avg
    simp only [f32_mult, hloop]
    rw [if_pos (by norm_num), hR, hG, h133, h4]

theorem getHistogram_nonneg (samples : List Color) (idx : Int) :
    0 ≤ (getHistogram samples).get idx := by
  rw [getHistogram_get]
  exact Int.natCast_nonneg _

theorem f32toInt_intCast (n : Int) (hn : 0 ≤ n) : f32toInt (n : ℚ) = n := by
  unfold f32toInt
  rw [if_pos (by exact_mod_cast hn), Int.floor_intCast]

theorem avg_eq_div (v : vbox) (hr : 0 ≤ v.r1 ∧ v.r1 ≤ v.r2 ∧ v.r2 ≤ 31)
    (hg : 0 ≤ v.g1 ∧ v.g1 ≤ v.g2 ∧ v.g2 ≤ 31) (hb : 0 ≤ v.b1 ∧ v.b1 ≤ v.b2 ∧ v.b2 ≤ 31)
    (hnn : ∀ idx : Int, 0 ≤ v.histo.get idx) (hpos : 0 < v.count)
    (hsmall : v.count < 131072) :
    v.avg = (4 * v.moment (fun c => c.1) / v.count, 4 * v.moment (fun c => c.2.1) / v.count,
      4 * v.moment (fun c => c.2.2) / v.count) := by
  have hloop := avgLoop_exact v ⟨hr.1, hr.2.2⟩ ⟨hg.1, hg.2.2⟩ ⟨hb.1, hb.2.2⟩ hnn (by omega)
  have hcb := cells_bounds v ⟨hr.1, hr.2.2⟩ ⟨hg.1, hg.2.2⟩ ⟨hb.1, hb.2.2⟩
  have h1 := moment_bounds v (fun c => c.1) (fun c hc => (hcb c hc).1) hnn
  have h2 := moment_bounds v (fun c => c.2.1) (fun c hc => (hcb c hc).2.1) hnn
  have h3 := moment_bounds v (fun c => c.2.2) (fun c hc => (hcb c hc).2.2) hnn
  unfold vbox.avg
  simp only [f32_mult, hloop]
  rw [if_pos (by exact_mod_cast hpos),
    f32toInt_f32div _ _ hpos hsmall (by omega) (by omega),
    f32toInt_f32div _ _ hpos hsmall (by omega) (by omega),
    f32toInt_f32div _ _ hpos hsmall (by omega) (by omega)]

/-- The seed box of three samples `(10, 20, 30, 255)` has the average colour
`(12, 20, 28)`, the centre of the cell `(1, 2, 3)`. -/
theorem avg_seedThree : seedThree.avg = (12, 20, 28) := by
  rw [avg_eq_div seedThree (by decide) (by decide) (by decide)
    (fun idx => getHistogram_nonneg _ idx) (by decide) (by decide)]
  decide

/-- C14, amended: for a box with `r1 <= r2`, `g1 <= g2`, `b1 <= b2`, bounds in `[0, 31]`
and a population between 1 and 131071 over a non-negative histogram, each channel
returned by `avg` is the integer truncation of the exact population-weighted centroid. -/
theorem avg_eq_centroid (v : vbox) (hr : 0 ≤ v.r1 ∧ v.r1 ≤ v.r2 ∧ v.r2 ≤ 31)
    (hg : 0 ≤ v.g1 ∧ v.g1 ≤ v.g2 ∧ v.g2 ≤ 31) (hb : 0 ≤ v.b1 ∧ v.b1 ≤ v.b2 ∧ v.b2 ≤ 31)
    (hnn : ∀ idx : Int, 0 ≤ v.histo.get idx) (hpos : 0 < v.count)
    (hsmall : v.count < 131072) :
    v.avg = (⌊v.centroid (fun c => c.1)⌋, ⌊v.centroid (fun c => c.2.1)⌋,
      ⌊v.centroid (fun c => c.2.2)⌋) := by
  rw [avg_eq_div v hr hg hb hnn hpos hsmall, floor_centroid v _ hpos,
    floor_centroid v _ hpos, floor_centroid v _ hpos]

theorem avg_eq_centroid_witness :
    seedThree.avg = (⌊seedThree.centroid (fun c => c.1)⌋,
      ⌊seedThree.centroid (fun c => c.2.1)⌋, ⌊seedThree.centroid (fun c => c.2.2)⌋) :=
  avg_eq_centroid seedThree (by decide) (by decide) (by decide)
    (fun idx => getHistogram_nonneg _ idx) (by decide) (by decide)

/-- C15: for a box with `r1 <= r2`, `g1 <= g2`, `b1 <= b2`, bounds in `[0, 31]` and
population 0 over a non-negative histogram, `avg` returns the geometric centre of the
box mapped to the 8-bit range, `(4 * (r1 + r2 + 1), 4 * (g1 + g2 + 1), 4 * (b1 + b2 + 1))`,
that is `((lo + hi) / 2 + 1/2) * 8` per channel, and every channel lies in `[0, 255]`. -/
theorem avg_of_empty (v : vbox) (hr : 0 ≤ v.r1 ∧ v.r1 ≤ v.r2 ∧ v.r2 ≤ 31)
    (hg : 0 ≤ v.g1 ∧ v.g1 ≤ v.g2 ∧ v.g2 ≤ 31) (hb : 0 ≤ v.b1 ∧ v.b1 ≤ v.b2 ∧ v.b2 ≤ 31)
    (hnn : ∀ idx : Int, 0 ≤ v.histo.get idx) (h0 : v.count = 0) :
    v.avg = (4 * (v.r1 + v.r2 + 1), 4 * (v.g1 + v.g2 + 1), 4 * (v.b1 + v.b2 + 1)) ∧
    ((v.avg.1 : ℚ) = (((v.r1 : ℚ) + v.r2) / 2 + 1 / 2) * 8 ∧
      (v.avg.2.1 : ℚ) = (((v.g1 : ℚ) + v.g2) / 2 + 1 / 2) * 8 ∧
      (v.avg.2.2 : ℚ) = (((v.b1 : ℚ) + v.b2) / 2 + 1 / 2) * 8) ∧
    (0 ≤ v.avg.1 ∧ v.avg.1 ≤ 255) ∧ (0 ≤ v.avg.2.1 ∧ v.avg.2.1 ≤ 255) ∧
    (0 ≤ v.avg.2.2 ∧ v.avg.2.2 ≤ 255) := by
  have hloop := avgLoop_exact v ⟨hr.1, hr.2.2⟩ ⟨hg.1, hg.2.2⟩ ⟨hb.1, hb.2.2⟩ hnn (by omega)
  have h8 : f32toInt (8 : ℚ) = 8 := f32toInt_intCast 8 (by decide)
  have hdiv : ∀ x : Int, Int.tdiv (8 * x) 2 = 4 * x := by
    intro x
    have e : 8 * x = 2 * (4 * x) := by ring
    rw [e, Int.mul_tdiv_cancel_left _ (by decide)]
  have havg : v.avg =
      (4 * (v.r1 + v.r2 + 1), 4 * (v.g1 + v.g2 + 1), 4 * (v.b1 + v.b2 + 1)) := by
    unfold vbox.avg
    simp only [f32_mult, hloop]
    rw [if_neg (by rw [h0]; norm_num), h8, hdiv, hdiv, hdiv]
  rw [havg]
  refine ⟨rfl, ⟨?_, ?_, ?_⟩, ?_, ?_, ?_⟩
  · push_cast; ring
  · push_cast; ring
  · push_cast; ring
  · simp only; omega
  · simp only; omega
  · simp only; omega

theorem avg_of_empty_witness :
    seedOne.avg =
      (4 * (seedOne.r1 + seedOne.r2 + 1), 4 * (seedOne.g1 + seedOne.g2 + 1),
        4 * (seedOne.b1 + seedOne.b2 + 1)) ∧
    ((seedOne.avg.1 : ℚ) = (((seedOne.r1 : ℚ) + seedOne.r2) / 2 + 1 / 2) * 8 ∧
      (seedOne.avg.2.1 : ℚ) = (((seedOne.g1 : ℚ) + seedOne.g2) / 2 + 1 / 2) * 8 ∧
      (seedOne.avg.2.2 : ℚ) = (((seedOne.b1 : ℚ) + seedOne.b2) / 2 + 1 / 2) * 8) ∧
    (0 ≤ seedOne.avg.1 ∧ seedOne.avg.1 ≤ 255) ∧
    (0 ≤ seedOne.avg.2.1 ∧ seedOne.avg.2.1 ≤ 255) ∧
    (0 ≤ seedOne.avg.2.2 ∧ seedOne.avg.2.2 ≤ 255) :=
  avg_of_empty seedOne (by decide) (by decide) (by decide)
    (fun idx => getHistogram_nonneg _ idx) (by decide)

end Colorthief
